import Mathlib

/-!
Verification of the Proteus-Scraper core against its natural-language
specification.  Each Python function named in a claim is shallowly embedded
as an executable Lean definition translated from the source under `src/`;
the theorems at the end of the file settle the claims.
-/

namespace Proteus

/-! ## String primitives

Python string operations are modelled over `List Char` with structural
recursion (character-based slicing, ASCII case folding — the hostnames,
scheme names and error codes involved are ASCII). -/

/-- Python `str.lower()` on an ASCII character. -/
def charLower (c : Char) : Char :=
  if 'A' ≤ c && c ≤ 'Z' then Char.ofNat (c.toNat + 32) else c

/-- Python `str.lower()`. -/
def strLower (s : String) : String :=
  String.mk (s.toList.map charLower)

/-- Python `str.strip()` whitespace set. -/
def isPySpace (c : Char) : Bool :=
  c = ' ' || c = '\t' || c = '\n' || c = '\r' || c = '\x0b' || c = '\x0c'

def chTrim (l : List Char) : List Char :=
  ((l.dropWhile isPySpace).reverse.dropWhile isPySpace).reverse

/-- Python `str.strip()`. -/
def strTrim (s : String) : String :=
  String.mk (chTrim s.toList)

def chSplitOnChar (c : Char) : List Char → List (List Char)
  | [] => [[]]
  | x :: xs =>
    let r := chSplitOnChar c xs
    if x = c then [] :: r
    else
      match r with
      | t :: rest => (x :: t) :: rest
      | [] => [[x]]

/-- Python `str.split(sep)` for a one-character separator. -/
def strSplitChar (c : Char) (s : String) : List String :=
  (chSplitOnChar c s.toList).map String.mk

def chSplitSub (sep : List Char) : Nat → List Char → List Char → List (List Char)
  | 0, acc, l => [acc.reverse ++ l]
  | fuel + 1, acc, l =>
    match l with
    | [] => [acc.reverse]
    | x :: xs =>
      if sep.isPrefixOf l && !sep.isEmpty then
        acc.reverse :: chSplitSub sep fuel [] (l.drop sep.length)
      else chSplitSub sep fuel (x :: acc) xs

/-- Python `str.split(sep)` for a multi-character separator. -/
def strSplitSub (sep s : String) : List String :=
  (chSplitSub sep.toList (s.toList.length + 1) [] s.toList).map String.mk

/-- Python `str.startswith(pat)`. -/
def strStartsWith (s pat : String) : Bool :=
  pat.toList.isPrefixOf s.toList

/-- Python `str.endswith(pat)`. -/
def strEndsWith (s pat : String) : Bool :=
  pat.toList.isSuffixOf s.toList

/-- Python slicing `s[n:]` (character-based). -/
def strDrop (s : String) (n : Nat) : String :=
  String.mk (s.toList.drop n)

def strTakeWhile (p : Char → Bool) (s : String) : String :=
  String.mk (s.toList.takeWhile p)

def strContainsChar (s : String) (c : Char) : Bool :=
  s.toList.any (fun x => x = c)

/-- First-occurrence deduplication (set semantics where only the cardinality
matters). -/
def distinctAux (seen : List String) : List String → List String
  | [] => []
  | x :: xs =>
    if seen.any (fun y => y = x) then distinctAux seen xs
    else x :: distinctAux (x :: seen) xs

def distinct (l : List String) : List String :=
  distinctAux [] l

/-! ## URL parsing (model of `urllib.parse.urlparse(...).hostname` etc.)

`core/governance.py` (`extract_domain`) and `core/security.py`
(`ensure_url_allowed`) rely on Python's `urllib.parse`.  The definitions
below model the relevant slice of `urlsplit`: scheme recognition, netloc
extraction (only after a literal `//`), userinfo stripping at the last `@`,
bracketed IPv6 hosts, port stripping at the first `:`, and lowercasing. -/

def isSchemeChar (c : Char) : Bool :=
  c.isAlpha || c.isDigit || c = '+' || c = '-' || c = '.'

def splitSchemeAux : List Char → List Char → Option (List Char × List Char)
  | [], _ => none
  | c :: rest, acc =>
    if c = ':' then some (acc.reverse, rest)
    else if isSchemeChar c then splitSchemeAux rest (c :: acc)
    else none

/-- Model of `urlsplit` scheme handling: a scheme is a nonempty run of
scheme characters starting with a letter, terminated by `:`. -/
def urlSplitScheme (url : String) : Option String × String :=
  match url.toList with
  | [] => (none, url)
  | c :: _ =>
    if c.isAlpha then
      match splitSchemeAux url.toList [] with
      | some (s, rest) =>
        if s = [] then (none, url) else (some (strLower (String.mk s)), String.mk rest)
      | none => (none, url)
    else (none, url)

/-- Model of `urlsplit` netloc: present only when the remainder after the
scheme starts with `//`; runs until `/`, `?` or `#`. -/
def urlNetloc (url : String) : String :=
  let rest := (urlSplitScheme url).2
  if strStartsWith rest "//" then
    strTakeWhile (fun c => c ≠ '/' && c ≠ '?' && c ≠ '#') (strDrop rest 2)
  else ""

/-- Model of `urlsplit(...)._hostinfo` + the lowercasing `hostname` property. -/
def urlHostname (url : String) : Option String :=
  let n := urlNetloc url
  let hostinfo := (strSplitChar '@' n).getLastD n
  let host :=
    if strContainsChar hostinfo '[' then
      strTakeWhile (fun c => c ≠ ']') ((strSplitChar '[' hostinfo).getD 1 "")
    else strTakeWhile (fun c => c ≠ ':') hostinfo
  if host = "" then none else some (strLower host)

/-- `core/governance.py::extract_domain` -/
def extractDomain (url : String) : Option String :=
  match urlHostname url with
  | none => none
  | some host => if host = "" then none else some (strLower host)

/-! ## Settings (`core/config.py`, fields used by the embedded functions) -/

structure Settings where
  routerMaxDepth : Int
  stealthEnabled : Bool
  stealthAllowedDomains : Option String
  externalEnabled : Bool
  externalAllowlistDomains : Option String
  externalApiKey : Option String
  circuitBreakerThreshold : Int
  circuitBreakerWindowSec : Int
  circuitBreakerCoolSec : Int
  rateLimitCapacity : Int
  rateLimitRefillPerSec : Rat
  identityFailureThreshold : Int
  ssrfAllowPrivateIps : Bool
  ssrfAllowlistDomains : Option String
  ssrfDenylistDomains : Option String
  deriving Repr, DecidableEq

/-- Truthiness of an optional string, as Python's `bool(...)`. -/
def optStrTruthy : Option String → Bool
  | none => false
  | some s => s ≠ ""

/-! ## Engine policy (`core/engine_policy.py`, `core/external_api.py`) -/

/-- `_parse_allowlist` (identical in both modules). -/
def parseAllowlist : Option String → List String
  | none => []
  | some v =>
    if v = "" then []
    else ((strSplitChar ',' v).map (fun item => strLower (strTrim item))).filter (fun item => item ≠ "")

/-- `engine_policy._domain_matches` (also `external_api._domain_matches`). -/
def policyDomainMatches (domain entry : String) : Bool :=
  domain = entry || strEndsWith domain ("." ++ entry)

/-- `core/engine_policy.py::is_stealth_allowed` -/
def isStealthAllowed (st : Settings) (url : String) : Bool :=
  if !st.stealthEnabled then false
  else
    let allow := parseAllowlist st.stealthAllowedDomains
    if allow = [] then true
    else
      match extractDomain url with
      | none => false
      | some d => allow.any (policyDomainMatches d)

/-- `core/external_api.py::is_external_allowed` -/
def isExternalAllowed (st : Settings) (url : String) : Bool :=
  if !st.externalEnabled then false
  else
    let allow := parseAllowlist st.externalAllowlistDomains
    if allow = [] then false
    else
      match extractDomain url with
      | none => false
      | some d => allow.any (policyDomainMatches d)

/-! ## Worker escalation (`core/queues.py`, `core/tasks.py`) -/

/-- `core/queues.py::ENGINE_TYPES` (the tuple exactly as in the source). -/
def ENGINE_TYPES : List String := ["fast", "browser", "stealth"]

/-- `core/tasks.py::_engine_allowed` -/
def engineAllowed (st : Settings) (engine url : String) : Bool :=
  if engine = "stealth" then isStealthAllowed st url
  else if engine = "external" then optStrTruthy st.externalApiKey && isExternalAllowed st url
  else true

/-- `core/tasks.py::_max_escalation_depth` -/
def maxEscalationDepth (st : Settings) : Int :=
  if st.routerMaxDepth ≤ 0 then 0
  else min st.routerMaxDepth ((ENGINE_TYPES.length : Int) - 1)

/-- The `while next_index < len(ENGINE_TYPES) and next_index <= max_depth`
loop of `_next_engine`, running over the enumerated suffix of
`ENGINE_TYPES` starting at `index + 1`. -/
def nextEngineScan (st : Settings) (url : String) (maxDepth : Int) :
    List (Nat × String) → Option String
  | [] => none
  | (i, e) :: rest =>
    if (i : Int) > maxDepth then none
    else if engineAllowed st e url then some e
    else nextEngineScan st url maxDepth rest

/-- `core/tasks.py::_next_engine` -/
def nextEngine (st : Settings) (current url : String) : Option String :=
  match ENGINE_TYPES.findIdx? (fun e => e = current) with
  | none => none
  | some index =>
    if maxEscalationDepth st ≤ 0 || (index : Int) ≥ maxEscalationDepth st then none
    else nextEngineScan st url (maxEscalationDepth st) (ENGINE_TYPES.enum.drop (index + 1))

/-- Modelled from the spec: the ordered engine list of §4.14 / §2,
`[fast, stealth, browser, external]`, which the code's `ENGINE_TYPES`
tuple and the repository's own `tests/integration/test_escalation.py`
expectations are measured against. -/
def specEngineOrder : List String := ["fast", "stealth", "browser", "external"]

/-- Modelled from the spec (§4.14): `next_engine` over the spec's ordered
list — first candidate strictly after the current engine, with index at
most `router_max_depth`, that is allowed for the URL. -/
def specNextEngine (st : Settings) (current url : String) : Option String :=
  match specEngineOrder.findIdx? (fun e => e = current) with
  | none => none
  | some index =>
    (specEngineOrder.enum.drop (index + 1)).findSome? fun p =>
      if (p.1 : Int) ≤ st.routerMaxDepth && engineAllowed st p.2 url then some p.2 else none

/-- The settings used by `tests/integration/test_escalation.py`:
`router_max_depth = 2`, stealth enabled and allowed for `testserver`. -/
def escalationTestSettings : Settings where
  routerMaxDepth := 2
  stealthEnabled := true
  stealthAllowedDomains := some "testserver"
  externalEnabled := false
  externalAllowlistDomains := none
  externalApiKey := none
  circuitBreakerThreshold := 5
  circuitBreakerWindowSec := 60
  circuitBreakerCoolSec := 300
  rateLimitCapacity := 0
  rateLimitRefillPerSec := 0
  identityFailureThreshold := 3
  ssrfAllowPrivateIps := false
  ssrfAllowlistDomains := none
  ssrfDenylistDomains := none

/-! ## Governance (`core/governance.py`) -/

/-- `core/governance.py::RateLimitDecision` -/
structure RateLimitDecision where
  allowed : Bool
  retryAfterMs : Int
  deriving Repr, DecidableEq

/-- What `RATE_LIMIT_LUA` persists: the hash fields `tokens`/`ts` and the
`EXPIRE` applied to the key. -/
structure BucketPersist where
  tokens : Rat
  ts : Int
  ttl : Int
  deriving Repr, DecidableEq

/-- `core/governance.py::RATE_LIMIT_LUA`, over exact rationals.  `stored`
is the `HMGET` result (`none` when the key holds no numbers). -/
def rateLimitLuaStep (stored : Option (Rat × Int)) (capacity refillRate : Rat)
    (nowMs : Int) (requested : Rat) (ttlSec : Int) : (Bool × Int) × BucketPersist :=
  let tokens0 := match stored with | none => capacity | some p => p.1
  let ts0 := match stored with | none => nowMs | some p => p.2
  let delta : Rat := max 0 ((nowMs : Rat) - (ts0 : Rat))
  let refill := delta * (refillRate / 1000)
  let tokens1 := min capacity (tokens0 + refill)
  if tokens1 ≥ requested then
    ((true, 0), ⟨tokens1 - requested, nowMs, ttlSec⟩)
  else
    let needed := requested - tokens1
    let retryAfter := if refillRate > 0 then ⌈needed / refillRate * 1000⌉ else 0
    ((false, retryAfter), ⟨tokens1, nowMs, ttlSec⟩)

/-- `core/governance.py::_rate_limit_ttl_seconds` -/
def rateLimitTTLSeconds (capacity : Int) (refillRate : Rat) : Int :=
  if refillRate ≤ 0 then 60
  else max 60 ⌈(capacity : Rat) / refillRate * 2⌉

/-- `core/governance.py::acquire_rate_limit_async` (the pure decision: the
second component is the state the Lua script persisted, `none` when the
limiter is disabled and no call is made). -/
def acquireRateLimit (st : Settings) (stored : Option (Rat × Int)) (nowMs : Int) :
    RateLimitDecision × Option BucketPersist :=
  if st.rateLimitCapacity ≤ 0 || st.rateLimitRefillPerSec ≤ 0 then
    (⟨true, 0⟩, none)
  else
    let ttlSec := rateLimitTTLSeconds st.rateLimitCapacity st.rateLimitRefillPerSec
    let r := rateLimitLuaStep stored (st.rateLimitCapacity : Rat) st.rateLimitRefillPerSec
      nowMs 1 ttlSec
    (⟨r.1.1, r.1.2⟩, some r.2)

/-- Modelled from the spec (§4.2.1 / C3): the claimed single atomic rate
acquisition over loaded state, with the claimed TTL read as the integer
ceiling `max(60, ⌈2·C/R⌉)`. -/
def specAcquireRateLimit (C : Int) (R : Rat) (tokens0 : Rat) (ts0 nowMs : Int) :
    RateLimitDecision × BucketPersist :=
  let refill : Rat := max 0 (((nowMs - ts0 : Int) : Rat) * R / 1000)
  let tokens := min (C : Rat) (tokens0 + refill)
  let ttl := max 60 ⌈2 * (C : Rat) / R⌉
  if tokens ≥ 1 then (⟨true, 0⟩, ⟨tokens - 1, nowMs, ttl⟩)
  else (⟨false, ⌈(1 - tokens) / R * 1000⌉⟩, ⟨tokens, nowMs, ttl⟩)

/-- Modelled from the spec's words for C3's TTL clause, literally:
`TTL = max(60, 2·C/R)` (no rounding). -/
def specClaimTTL (C : Int) (R : Rat) : Rat :=
  max 60 (2 * (C : Rat) / R)

/-- Per-domain circuit-breaker keys in the coordination store:
`breaker:<domain>:failures` (count, with its TTL) and
`breaker:<domain>:open` (with its TTL); an absent counter reads 0. -/
structure BreakerState where
  failures : String → Nat
  failTTL : String → Option Int
  openTTL : String → Option Int

/-- The empty coordination store (no breaker keys at all). -/
def BreakerState.empty : BreakerState :=
  ⟨fun _ => 0, fun _ => none, fun _ => none⟩

/-- `core/governance.py::record_failure_async` -/
def recordFailure (st : Settings) (s : BreakerState) (domain : String)
    (status : Option Int) : BreakerState :=
  if !(status = some 403 || status = some 429) then s
  else if st.circuitBreakerThreshold ≤ 0 then s
  else
    let count := s.failures domain + 1
    let s1 : BreakerState := { s with failures := Function.update s.failures domain count }
    let s2 : BreakerState :=
      if count = 1 then
        { s1 with failTTL := Function.update s1.failTTL domain (some st.circuitBreakerWindowSec) }
      else s1
    if (count : Int) ≥ st.circuitBreakerThreshold then
      { s2 with openTTL := Function.update s2.openTTL domain (some st.circuitBreakerCoolSec) }
    else s2

/-- `core/governance.py::is_circuit_open_async` (`EXISTS breaker:<d>:open`). -/
def isCircuitOpen (s : BreakerState) (domain : String) : Bool :=
  (s.openTTL domain).isSome

/-- `core/governance.py::guard_request_async`.  `rateOk domain` stands for
the boolean outcome of `wait_for_rate_limit_async` for that domain. -/
def guardRequest (s : BreakerState) (rateOk : String → Bool) (url : String) :
    Option String :=
  match extractDomain url with
  | none => none
  | some domain =>
    if isCircuitOpen s domain then some "circuit_open"
    else if rateOk domain then none
    else some "rate_limited"

/-! ## Identity failure handling (`core/identities.py`) -/

/-- The `Identity` columns read and written by
`record_identity_failure_async` (`core/models.py::Identity`). -/
structure Identity where
  active : Bool
  useCount : Int
  failureCount : Int
  lastUsedAt : Option Int
  lastFailedAt : Option Int
  deriving Repr, DecidableEq

/-- `core/identities.py::_is_ban_reason` -/
def isBanReason : Option String → Bool
  | none => false
  | some r =>
    if r = "" then false
    else if r = "http_403" || r = "http_429" then true
    else if strStartsWith r "blocked_" then true
    else r = "captcha_detected" || r = "challenge_script"

/-- `core/identities.py::record_identity_failure_async` (the identity-row
mutation; `now` is the wall-clock instant). -/
def recordIdentityFailure (st : Settings) (i : Identity) (reason : Option String)
    (now : Int) : Identity :=
  if !isBanReason reason then i
  else
    let fc := i.failureCount + 1
    { i with
      failureCount := fc
      lastFailedAt := some now
      active := if fc ≥ st.identityFailureThreshold ∧ st.identityFailureThreshold > 0
        then false else i.active }

/-- Modelled from the spec (§4.4.4 / C6): the claimed set of
ban-indicating reasons, which includes every `vision_*` reason. -/
def specBanReason (r : String) : Bool :=
  r = "http_403" || r = "http_429" || r = "captcha_detected" ||
    r = "challenge_script" || strStartsWith r "blocked_" || strStartsWith r "vision_"

/-- A concrete active identity as created by the admin API (fresh row). -/
def sampleIdentity : Identity :=
  ⟨true, 4, 0, some 100, none⟩

/-! ## Python/JSON values

`scraper/parsing.py` and `scraper/detector.py` operate on Python values
(`None`, `bool`, `int`, `float`, `str`, `dict`, `list`).  Floats are
modelled as exact rationals; every float literal appearing in a theorem
below is exactly representable in binary floating point with a shortest
repr equal to its decimal rendering, so the model is exact there. -/

inductive PVal where
  | null : PVal
  | boolean (b : Bool) : PVal
  | int (i : Int) : PVal
  | float (q : Rat) : PVal
  | str (s : String) : PVal
  | list (xs : List PVal) : PVal
  | dict (fields : List (String × PVal)) : PVal
  deriving Repr

/-- Python `dict` lookup (`d[k]` / `d.get(k)`); keys are unique in a real
Python dict, so first match is the match. -/
def dictGet? (d : List (String × PVal)) (k : String) : Option PVal :=
  (d.find? (fun p => p.1 = k)).map (fun p => p.2)

/-- Python `dict` assignment `d[k] = v`: update in place (keeping the
key's insertion position) or append a fresh key at the end. -/
def dictSet (d : List (String × PVal)) (k : String) (v : PVal) :
    List (String × PVal) :=
  if d.any (fun p => p.1 = k) then
    d.map (fun p => if p.1 = k then (k, v) else p)
  else d ++ [(k, v)]

mutual

/-- `scraper/detector.py::_data_has_value` -/
def dataHasValue : PVal → Bool
  | .null => false
  | .boolean _ => true
  | .int _ => true
  | .float _ => true
  | .str s => !(strTrim s = "")
  | .list xs => dataHasValueList xs
  | .dict fields => dataHasValueFields fields

/-- `any(_data_has_value(item) for item in value)` -/
def dataHasValueList : List PVal → Bool
  | [] => false
  | v :: rest => dataHasValue v || dataHasValueList rest

/-- `any(_data_has_value(item) for item in value.values())` -/
def dataHasValueFields : List (String × PVal) → Bool
  | [] => false
  | p :: rest => dataHasValue p.2 || dataHasValueFields rest

end

/-! ## Selector specifications (`scraper/parsing.py::SelectorSpec`) -/

structure SelectorSpec where
  field : String
  selector : String
  dataType : String
  required : Bool := true
  groupName : Option String := none
  itemSelector : Option String := none
  attr : Option String := none
  deriving Repr, DecidableEq

/-! ## Terminal job writes (`scraper/runner.py`, `core/tasks.py`) -/

/-- The `Job` columns written by the terminal paths
(`core/models.py::Job`; `result` is the JSONB payload or SQL NULL). -/
structure JobRec where
  state : String
  result : Option PVal
  error : Option String
  deriving Repr

/-- `scraper/runner.py::_update_job` (the row mutation; artifact
replacement and `updated_at` are outside the claim). -/
def updateJob (j : JobRec) (data : Option PVal) (error : Option String) : JobRec :=
  { j with
    state := if error = none then "succeeded" else "failed"
    result := if error = none then data else none
    error := error }

/-- `core/tasks.py::process_job`, lines 130–136: escalation exhausted —
`job.state = "failed"; job.error = reason` (`job.result` untouched). -/
def taskFinalizeFailed (j : JobRec) (reason : String) : JobRec :=
  { j with state := "failed", error := some reason }

/-- `core/tasks.py::process_job`, lines 139–146: non-escalatable failure —
`job.state = "failed"; job.error = outcome.error` (`job.result` untouched). -/
def taskFailNoEscalate (j : JobRec) (err : Option String) : JobRec :=
  { j with state := "failed", error := err }

/-- The invariant claimed for finished jobs (spec §8 invariant 1 / C2). -/
def finishedJobInvariant (j : JobRec) : Prop :=
  (j.state = "succeeded" ∨ j.state = "failed") ∧
  (j.state = "succeeded" ↔ j.result ≠ none ∧ j.error = none) ∧
  (j.state = "failed" ↔ j.error ≠ none ∧ j.result = none)

/-! ## Empty-parse detector (`scraper/detector.py`) -/

/-- `scraper/detector.py::_has_required_fields` -/
def hasRequiredFields (selectors : List SelectorSpec) : Bool :=
  selectors.any (fun spec => spec.required)

/-- `scraper/detector.py::detect_empty_parse` -/
def detectEmptyParse (status : Option Int) (data : Option (List (String × PVal)))
    (selectors : List SelectorSpec) (errors : List String) : Option String :=
  if !(status = none || status = some 200) then none
  else if !hasRequiredFields selectors then none
  else if !errors.isEmpty && errors.any (fun e => e = "parsel_unavailable") then none
  else
    match data with
    | none => some "empty_parse"
    | some d =>
      if d.isEmpty then some "empty_parse"
      else if !dataHasValue (.dict d) then some "empty_parse"
      else none

/-- Modelled from the spec's words for C5: "parse produced no value for
any required field" — every required selector's field is absent, null, or
valueless in `data`. -/
def specNoRequiredValue (data : Option (List (String × PVal)))
    (selectors : List SelectorSpec) : Bool :=
  selectors.all fun spec =>
    !spec.required ||
      (match data with
       | none => true
       | some d =>
         match dictGet? d spec.field with
         | none => true
         | some v => !dataHasValue v)

/-- Modelled from the spec's words for C5: the full claimed condition for
returning `empty_parse`. -/
def specEmptyParseCond (status : Option Int) (data : Option (List (String × PVal)))
    (selectors : List SelectorSpec) (errors : List String) : Bool :=
  (status = none || status = some 200) && hasRequiredFields selectors &&
    specNoRequiredValue data selectors && !(errors.any (fun e => e = "parsel_unavailable"))

/-! ## Python scalar conversions used by `scraper/parsing.py`

`int(...)`/`float(...)` on strings and `str(...)` on values are modelled
exactly for the inputs exercised here: plain optionally-signed decimal
(and scientific) literals, and values whose shortest float repr is a
terminating decimal — which covers every concrete value in this file. -/

def digitsToNat (ds : List Char) : Nat :=
  ds.foldl (fun n c => n * 10 + (c.toNat - 48)) 0

/-- Model of Python `int(s)` for base-10 strings. -/
def pyIntParse (s : String) : Option Int :=
  let t := strTrim s
  let sign : Int := if strStartsWith t "-" then -1 else 1
  let digits := if strStartsWith t "-" || strStartsWith t "+" then strDrop t 1 else t
  if digits = "" then none
  else if digits.toList.all (fun c => c.isDigit) then
    some (sign * (digitsToNat digits.toList : Int))
  else none

/-- Model of Python `float(s)`: an exact rational reading of the decimal
(optionally scientific) literal. -/
def pyFloatParse (s : String) : Option Rat :=
  let t := chTrim s.toList
  let sign : Int := match t with | '-' :: _ => -1 | _ => 1
  let t := match t with | '-' :: r => r | '+' :: r => r | _ => t
  let ip := t.takeWhile (fun c => c.isDigit)
  let t := t.dropWhile (fun c => c.isDigit)
  let hasDot := match t with | '.' :: _ => true | _ => false
  let t := match t with | '.' :: r => r | _ => t
  let fp := if hasDot then t.takeWhile (fun c => c.isDigit) else []
  let t := if hasDot then t.dropWhile (fun c => c.isDigit) else t
  if ip = [] && fp = [] then none
  else
    let mant : Int := sign * (digitsToNat (ip ++ fp) : Int)
    let scale : Int := (fp.length : Int)
    match t with
    | [] => some ((mant : Rat) * (10 : Rat) ^ (0 - scale))
    | e :: r =>
      if e = 'e' || e = 'E' then
        let esign : Int := match r with | '-' :: _ => -1 | _ => 1
        let r := match r with | '-' :: rr => rr | '+' :: rr => rr | _ => r
        let ed := r.takeWhile (fun c => c.isDigit)
        let rest := r.dropWhile (fun c => c.isDigit)
        if ed = [] || !rest.isEmpty then none
        else some ((mant : Rat) * (10 : Rat) ^ (esign * (digitsToNat ed : Int) - scale))
      else none

/-- Decimal digits of the fractional part `r/den`; the fuel bounds the
expansion, which terminates well inside it for every dyadic rational
float appearing in this development. -/
def fracDigits : Nat → Nat → Nat → List Char
  | 0, _, _ => []
  | _ + 1, 0, _ => []
  | fuel + 1, r, den =>
    let r10 := r * 10
    Char.ofNat (48 + r10 / den) :: fracDigits fuel (r10 % den) den

/-- Model of CPython `repr`/`str` of a float whose shortest round-trip
repr is its terminating decimal expansion. -/
def floatRepr (q : Rat) : String :=
  let sign := if q < 0 then "-" else ""
  let n := q.num.natAbs
  let d := q.den
  if n % d = 0 then sign ++ toString (n / d) ++ ".0"
  else sign ++ toString (n / d) ++ "." ++ String.mk (fracDigits 64 (n % d) d)

def pyQuote (s : String) : String :=
  String.singleton (Char.ofNat 39) ++ s ++ String.singleton (Char.ofNat 39)

mutual

/-- Model of Python `str(value)` (`repr` for nested containers). -/
def pyStr : PVal → String
  | .null => "None"
  | .boolean true => "True"
  | .boolean false => "False"
  | .int i => toString i
  | .float q => floatRepr q
  | .str s => s
  | .list xs => "[" ++ pyReprSeq xs ++ "]"
  | .dict fields => "\x7b" ++ pyReprFields fields ++ "\x7d"

/-- Model of `repr(value)` (strings gain quotes). -/
def pyReprVal : PVal → String
  | .str s => pyQuote s
  | .list xs => "[" ++ pyReprSeq xs ++ "]"
  | .dict fields => "\x7b" ++ pyReprFields fields ++ "\x7d"
  | v => pyStr v

def pyReprSeq : List PVal → String
  | [] => ""
  | [v] => pyReprVal v
  | v :: rest => pyReprVal v ++ ", " ++ pyReprSeq rest

def pyReprFields : List (String × PVal) → String
  | [] => ""
  | [(k, v)] => pyQuote k ++ ": " ++ pyReprVal v
  | (k, v) :: rest => pyQuote k ++ ": " ++ pyReprVal v ++ ", " ++ pyReprFields rest

end

/-! ## Value coercion and normalization (`scraper/parsing.py`) -/

/-- Truncation toward zero, as Python `int(float)`. -/
def ratTrunc (q : Rat) : Int :=
  if 0 ≤ q then q.floor else q.ceil

/-- `value.replace(",", "")`. -/
def stripCommas (s : String) : String :=
  String.mk (s.toList.filter (fun c => c ≠ ','))

/-- `scraper/parsing.py::coerce_value`; `.error ()` is the `ValueError`
caught by the callers. -/
def coerceValue (value : String) (dataType : String) : Except Unit PVal :=
  if dataType = "string" then .ok (.str value)
  else if dataType = "int" then
    match pyIntParse (stripCommas value) with
    | some i => .ok (.int i)
    | none => .error ()
  else if dataType = "float" then
    match pyFloatParse (stripCommas value) with
    | some q => .ok (.float q)
    | none => .error ()
  else if dataType = "bool" then
    let t := strLower (strTrim value)
    .ok (.boolean (t = "1" || t = "true" || t = "yes" || t = "y"))
  else .ok (.str value)

/-- Error outcomes of `_normalize_value`: `valueError` is the
`ValueError` caught in `normalize_data`; `typeCrash` is the uncaught
`TypeError` Python raises for `int(list)`, `float(dict)`, etc. -/
inductive NormErr where
  | valueError : NormErr
  | typeCrash : NormErr
  deriving Repr, DecidableEq

/-- `scraper/parsing.py::_normalize_value` -/
def normalizeValue (value : PVal) (dataType : String) : Except NormErr PVal :=
  if dataType = "string" then
    .ok (match value with | .str _ => value | v => .str (pyStr v))
  else
    match value with
    | .str s =>
      match coerceValue s dataType with
      | .ok w => .ok w
      | .error _ => .error .valueError
    | v =>
      if dataType = "int" then
        match v with
        | .boolean _ => .error .valueError
        | .int i => .ok (.int i)
        | .float q => .ok (.int (ratTrunc q))
        | _ => .error .typeCrash
      else if dataType = "float" then
        match v with
        | .boolean _ => .error .valueError
        | .int i => .ok (.float (i : Rat))
        | .float q => .ok (.float q)
        | _ => .error .typeCrash
      else if dataType = "bool" then
        match v with
        | .boolean b => .ok (.boolean b)
        | .int i => .ok (.boolean (decide (i ≠ 0)))
        | .float q => .ok (.boolean (decide (q ≠ 0)))
        | _ => .error .valueError
      else .ok v

/-! ## Selector grouping (`scraper/parsing.py::_split_selectors`,
`_resolve_item_selector`) -/

/-- `groups.setdefault(name, []).append(spec)` -/
def groupsInsert (groups : List (String × List SelectorSpec)) (g : String)
    (spec : SelectorSpec) : List (String × List SelectorSpec) :=
  if groups.any (fun p => p.1 = g) then
    groups.map (fun p => if p.1 = g then (p.1, p.2 ++ [spec]) else p)
  else groups ++ [(g, [spec])]

def splitSelectorsAux (flat : List SelectorSpec)
    (groups : List (String × List SelectorSpec)) :
    List SelectorSpec → List SelectorSpec × List (String × List SelectorSpec)
  | [] => (flat, groups)
  | spec :: rest =>
    match spec.groupName with
    | some g =>
      if g = "" then splitSelectorsAux (flat ++ [spec]) groups rest
      else splitSelectorsAux flat (groupsInsert groups g spec) rest
    | none => splitSelectorsAux (flat ++ [spec]) groups rest

/-- `scraper/parsing.py::_split_selectors` (`if spec.group_name:` is a
truthiness test, so an empty group name counts as flat). -/
def splitSelectors (selectors : List SelectorSpec) :
    List SelectorSpec × List (String × List SelectorSpec) :=
  splitSelectorsAux [] [] selectors

/-- `scraper/parsing.py::_resolve_item_selector`: the set of truthy
`item_selector`s must have exactly one element. -/
def resolveItemSelector (specs : List SelectorSpec) : Option String :=
  let sels := distinct (specs.filterMap fun spec =>
    match spec.itemSelector with
    | some s => if s = "" then none else some s
    | none => none)
  match sels with
  | [s] => some s
  | _ => none

/-! ## `scraper/parsing.py::normalize_data` -/

/-- `spec.field not in data or data[spec.field] is None` -/
def pyGetNonNull (d : List (String × PVal)) (k : String) : Option PVal :=
  match dictGet? d k with
  | none => none
  | some .null => none
  | some v => some v

def normFlat (data : List (String × PVal)) :
    List SelectorSpec → List (String × PVal) → List String →
    Except NormErr (List (String × PVal) × List String)
  | [], acc, errs => .ok (acc, errs)
  | spec :: rest, acc, errs =>
    match pyGetNonNull data spec.field with
    | none =>
      if spec.required then normFlat data rest acc (errs ++ ["missing:" ++ spec.field])
      else normFlat data rest acc errs
    | some v =>
      match normalizeValue v spec.dataType with
      | .ok w => normFlat data rest (dictSet acc spec.field w) errs
      | .error .valueError => normFlat data rest acc (errs ++ ["type:" ++ spec.field])
      | .error .typeCrash => .error .typeCrash

def normItemFields (g : String) (idx : Nat) (item : List (String × PVal)) :
    List SelectorSpec → List (String × PVal) → List String →
    Except NormErr (List (String × PVal) × List String)
  | [], acc, errs => .ok (acc, errs)
  | spec :: rest, acc, errs =>
    match pyGetNonNull item spec.field with
    | none =>
      if spec.required then
        normItemFields g idx item rest acc
          (errs ++ ["missing:" ++ (g ++ "." ++ spec.field ++ ":" ++ toString idx)])
      else normItemFields g idx item rest acc errs
    | some v =>
      match normalizeValue v spec.dataType with
      | .ok w => normItemFields g idx item rest (dictSet acc spec.field w) errs
      | .error .valueError =>
        normItemFields g idx item rest acc
          (errs ++ ["type:" ++ (g ++ "." ++ spec.field ++ ":" ++ toString idx)])
      | .error .typeCrash => .error .typeCrash

def normItems (g : String) (specs : List SelectorSpec) :
    List PVal → Nat → List PVal → List String →
    Except NormErr (List PVal × List String)
  | [], _, accItems, errs => .ok (accItems, errs)
  | item :: rest, idx, accItems, errs =>
    match item with
    | .dict fields =>
      match normItemFields g idx fields specs [] [] with
      | .ok (itemData, itemErrs) =>
        normItems g specs rest (idx + 1) (accItems ++ [.dict itemData]) (errs ++ itemErrs)
      | .error e => .error e
    | _ =>
      normItems g specs rest (idx + 1) accItems
        (errs ++ ["type:" ++ (g ++ ":" ++ toString idx)])

def normGroups (data : List (String × PVal)) :
    List (String × List SelectorSpec) → List (String × PVal) → List String →
    Except NormErr (List (String × PVal) × List String)
  | [], acc, errs => .ok (acc, errs)
  | (g, specs) :: rest, acc, errs =>
    match pyGetNonNull data g with
    | none =>
      if specs.any (fun spec => spec.required) then
        normGroups data rest acc (errs ++ ["missing:" ++ g])
      else normGroups data rest acc errs
    | some (.list items) =>
      match normItems g specs items 0 [] [] with
      | .ok (normedItems, itemErrs) =>
        normGroups data rest (dictSet acc g (.list normedItems)) (errs ++ itemErrs)
      | .error e => .error e
    | some _ => normGroups data rest acc (errs ++ ["type:" ++ g])

/-- `scraper/parsing.py::normalize_data`.  The `Except` layer carries the
uncaught `TypeError` crash; `.ok` is the function's normal
`(normalized, errors)` return. -/
def normalizeData (data : List (String × PVal)) (selectors : List SelectorSpec) :
    Except NormErr (List (String × PVal) × List String) :=
  let split := splitSelectors selectors
  match normFlat data split.1 [] [] with
  | .ok (d, e) => normGroups data split.2 d e
  | .error e => .error e

/-! ## Abstract DOM and `scraper/parsing.py::_parse_with_selectolax`

The selectolax HTML tree is external to the repository; it is modelled as
an abstract node carrying its attributes, its stripped text, and its CSS
query function (`css`; `css_first` is its head).  `urljoin` is likewise
Python stdlib and is passed in as a parameter `uj`. -/

inductive DomNode where
  | mk : List (String × String) → String → (String → List DomNode) → DomNode

/-- `node.attributes.get(name)` -/
def DomNode.attrGet : DomNode → String → Option String
  | .mk attrs _ _, name => (attrs.find? (fun p => p.1 = name)).map (fun p => p.2)

/-- `node.text(strip=True)` -/
def DomNode.strippedText : DomNode → String
  | .mk _ t _ => t

/-- `node.css(selector)` -/
def DomNode.cssAll : DomNode → String → List DomNode
  | .mk _ _ q, sel => q sel

/-- `node.css_first(selector)` -/
def DomNode.cssFirst (n : DomNode) (sel : String) : Option DomNode :=
  (n.cssAll sel).head?

/-- A document with no matching nodes at all. -/
def emptyDom : DomNode := .mk [] "" (fun _ => [])

/-- `scraper/parsing.py::_strip_css_prefix` -/
def stripCssTag (selector : String) : String :=
  if strStartsWith selector "css:" then strDrop selector 4 else selector

/-- `scraper/parsing.py::_normalize_attribute` (`uj` is `urljoin`). -/
def normalizeAttr (uj : String → String → String) (value : String)
    (attrName : String) (baseUrl : Option String) : String :=
  match baseUrl with
  | none => value
  | some base =>
    if base = "" then value
    else
      let cleaned := strTrim value
      if cleaned = "" then value
      else if strStartsWith cleaned "#" || strStartsWith cleaned "javascript:"
          || strStartsWith cleaned "mailto:" || strStartsWith cleaned "tel:" then value
      else if (attrName = "href" || attrName = "src" || attrName = "data-href"
            || attrName = "data-url" || attrName = "data-src")
          || strStartsWith cleaned "/" || strStartsWith cleaned "http://"
          || strStartsWith cleaned "https://" || strStartsWith cleaned "//" then
        uj base cleaned
      else value

/-- `scraper/parsing.py::_extract_raw` (`if spec.attribute:` is truthy). -/
def extractRaw (uj : String → String → String) (node : Option DomNode)
    (spec : SelectorSpec) (baseUrl : Option String) : Option String :=
  match node with
  | none => none
  | some n =>
    let attrTruthy : Bool := match spec.attr with | some a => a ≠ "" | none => false
    if attrTruthy then
      let a := spec.attr.getD ""
      match n.attrGet a with
      | none => none
      | some value => some (normalizeAttr uj value a baseUrl)
    else some n.strippedText

/-- The flat-selector loop of `_parse_with_selectolax`. -/
def parseFlat (uj : String → String → String) (tree : DomNode)
    (baseUrl : Option String) :
    List SelectorSpec → List (String × PVal) → List String →
    List (String × PVal) × List String
  | [], data, errs => (data, errs)
  | spec :: rest, data, errs =>
    let node := tree.cssFirst (stripCssTag spec.selector)
    let raw := extractRaw uj node spec baseUrl
    if raw = none || raw = some "" then
      if spec.required then
        parseFlat uj tree baseUrl rest data (errs ++ ["missing:" ++ spec.field])
      else parseFlat uj tree baseUrl rest data errs
    else
      match coerceValue (raw.getD "") spec.dataType with
      | .ok w => parseFlat uj tree baseUrl rest (dictSet data spec.field w) errs
      | .error _ => parseFlat uj tree baseUrl rest data (errs ++ ["type:" ++ spec.field])

/-- The per-item field loop of the group branch. -/
def parseItemFields (uj : String → String → String) (item : DomNode)
    (baseUrl : Option String) (g : String) (idx : Nat) :
    List SelectorSpec → List (String × PVal) → List String →
    List (String × PVal) × List String
  | [], itemData, errs => (itemData, errs)
  | spec :: rest, itemData, errs =>
    let node := item.cssFirst (stripCssTag spec.selector)
    let raw := extractRaw uj node spec baseUrl
    if raw = none || raw = some "" then
      if spec.required then
        parseItemFields uj item baseUrl g idx rest itemData
          (errs ++ ["missing:" ++ (g ++ "." ++ spec.field ++ ":" ++ toString idx)])
      else parseItemFields uj item baseUrl g idx rest itemData errs
    else
      match coerceValue (raw.getD "") spec.dataType with
      | .ok w =>
        parseItemFields uj item baseUrl g idx rest (dictSet itemData spec.field w) errs
      | .error _ =>
        parseItemFields uj item baseUrl g idx rest itemData
          (errs ++ ["type:" ++ (g ++ "." ++ spec.field ++ ":" ++ toString idx)])

/-- The item iteration of the group branch (`for idx, item in enumerate(items)`). -/
def parseGroupItems (uj : String → String → String) (baseUrl : Option String)
    (g : String) (specs : List SelectorSpec) :
    List DomNode → Nat → List PVal → List String → List PVal × List String
  | [], _, accItems, errs => (accItems, errs)
  | item :: rest, idx, accItems, errs =>
    let r := parseItemFields uj item baseUrl g idx specs [] []
    parseGroupItems uj baseUrl g specs rest (idx + 1)
      (accItems ++ [.dict r.1]) (errs ++ r.2)

/-- The group loop of `_parse_with_selectolax`. -/
def parseGroups (uj : String → String → String) (tree : DomNode)
    (baseUrl : Option String) :
    List (String × List SelectorSpec) → List (String × PVal) → List String →
    List (String × PVal) × List String
  | [], data, errs => (data, errs)
  | (g, specs) :: rest, data, errs =>
    match resolveItemSelector specs with
    | none =>
      parseGroups uj tree baseUrl rest (dictSet data g (.list []))
        (if specs.any (fun spec => spec.required) then
          errs ++ ["missing_group_selector:" ++ g] else errs)
    | some itemSel =>
      if (tree.cssAll (stripCssTag itemSel)).isEmpty then
        parseGroups uj tree baseUrl rest (dictSet data g (.list []))
          (if specs.any (fun spec => spec.required) then
            errs ++ ["missing:" ++ g] else errs)
      else
        parseGroups uj tree baseUrl rest
          (dictSet data g (.list
            (parseGroupItems uj baseUrl g specs
              (tree.cssAll (stripCssTag itemSel)) 0 [] []).1))
          (errs ++ (parseGroupItems uj baseUrl g specs
            (tree.cssAll (stripCssTag itemSel)) 0 [] []).2)

/-- `scraper/parsing.py::_parse_with_selectolax` -/
def parseSelectolax (uj : String → String → String) (tree : DomNode)
    (selectors : List SelectorSpec) (baseUrl : Option String) :
    List (String × PVal) × List String :=
  let split := splitSelectors selectors
  let r := parseFlat uj tree baseUrl split.1 [] []
  parseGroups uj tree baseUrl split.2 r.1 r.2

/-! ## SSRF guard (`core/security.py`)

IP addresses are modelled as their numeric value; the range predicates
below model the corresponding Python `ipaddress` properties (for IPv4 the
full CPython private-network list; for IPv6 the principal ranges — the
loopback, unspecified, multicast, link-local, site-local and unique-local
blocks).  DNS resolution (`_resolve_host_ips`) is I/O and is passed in as
the `resolver` parameter; `.error ()` is a raised `socket.gaierror`. -/

inductive IPAddr where
  | v4 (n : Nat) : IPAddr
  | v6 (n : Nat) : IPAddr
  deriving Repr, DecidableEq

/-- Dotted-quad value as a number. -/
def v4Val (a b c d : Nat) : Nat :=
  ((a * 256 + b) * 256 + c) * 256 + d

/-- Membership of `n` in the IPv4 network `net/bits`. -/
def inV4Net (n net bits : Nat) : Bool :=
  n / 2 ^ (32 - bits) = net / 2 ^ (32 - bits)

/-- Membership of `n` in the IPv6 network `net/bits`. -/
def inV6Net (n net bits : Nat) : Bool :=
  n / 2 ^ (128 - bits) = net / 2 ^ (128 - bits)

/-- CPython `IPv4Address.is_private` (the `_private_networks` list). -/
def v4IsPrivate (n : Nat) : Bool :=
  inV4Net n (v4Val 0 0 0 0) 8 ||
  inV4Net n (v4Val 10 0 0 0) 8 ||
  inV4Net n (v4Val 127 0 0 0) 8 ||
  inV4Net n (v4Val 169 254 0 0) 16 ||
  inV4Net n (v4Val 172 16 0 0) 12 ||
  inV4Net n (v4Val 192 0 0 0) 29 ||
  inV4Net n (v4Val 192 0 0 170) 31 ||
  inV4Net n (v4Val 192 0 2 0) 24 ||
  inV4Net n (v4Val 192 168 0 0) 16 ||
  inV4Net n (v4Val 198 18 0 0) 15 ||
  inV4Net n (v4Val 198 51 100 0) 24 ||
  inV4Net n (v4Val 203 0 113 0) 24 ||
  inV4Net n (v4Val 240 0 0 0) 4 ||
  n = v4Val 255 255 255 255

def ipIsLoopback : IPAddr → Bool
  | .v4 n => inV4Net n (v4Val 127 0 0 0) 8
  | .v6 n => n = 1

def ipIsLinkLocal : IPAddr → Bool
  | .v4 n => inV4Net n (v4Val 169 254 0 0) 16
  | .v6 n => inV6Net n (0xfe80 <<< 112) 10

def ipIsMulticast : IPAddr → Bool
  | .v4 n => inV4Net n (v4Val 224 0 0 0) 4
  | .v6 n => inV6Net n (0xff00 <<< 112) 8

def ipIsReserved : IPAddr → Bool
  | .v4 n => inV4Net n (v4Val 240 0 0 0) 4
  | .v6 n => inV6Net n (0x400 <<< 112) 6 || inV6Net n (0x800 <<< 112) 5

def ipIsUnspecified : IPAddr → Bool
  | .v4 n => n = 0
  | .v6 n => n = 0

def ipIsSiteLocal : IPAddr → Bool
  | .v4 _ => false
  | .v6 n => inV6Net n (0xfec0 <<< 112) 10

def ipIsPrivateProp : IPAddr → Bool
  | .v4 n => v4IsPrivate n
  | .v6 n =>
    n = 1 || n = 0 ||
    inV6Net n (0xfc00 <<< 112) 7 ||
    inV6Net n (0xfe80 <<< 112) 10 ||
    inV6Net n ((0x2001 <<< 112) + (0xdb8 <<< 96)) 32 ||
    inV6Net n (0x64 <<< 104) 64 ||
    inV6Net n (0xffff <<< 32) 96

/-- `core/security.py::_ip_is_private` -/
def ipIsPrivate (ip : IPAddr) : Bool :=
  (ipIsPrivateProp ip || ipIsLoopback ip || ipIsLinkLocal ip || ipIsMulticast ip) ||
  (ipIsReserved ip || ipIsUnspecified ip) ||
  (match ip with | .v6 _ => ipIsSiteLocal ip | .v4 _ => false)

/-! ### Textual IP parsing (model of `ipaddress.ip_address(host)`) -/

/-- One dotted-quad octet: 1–3 digits, value ≤ 255, no leading zero. -/
def parseOctet (s : String) : Option Nat :=
  let cs := s.toList
  if cs = [] || cs.length > 3 then none
  else if !cs.all (fun c => c.isDigit) then none
  else if cs.length > 1 && cs.head? = some '0' then none
  else
    let v := digitsToNat cs
    if v ≤ 255 then some v else none

def parseV4 (s : String) : Option Nat :=
  match (strSplitChar '.' s).map parseOctet with
  | [some a, some b, some c, some d] => some (v4Val a b c d)
  | _ => none

def hexDigitVal (c : Char) : Option Nat :=
  if c.isDigit then some (c.toNat - 48)
  else if 'a' ≤ c && c ≤ 'f' then some (c.toNat - 87)
  else if 'A' ≤ c && c ≤ 'F' then some (c.toNat - 55)
  else none

/-- One IPv6 group: 1–4 hex digits. -/
def parseHexGroup (s : String) : Option Nat :=
  let cs := s.toList
  if cs = [] || cs.length > 4 then none
  else cs.foldl (fun acc c =>
    match acc, hexDigitVal c with
    | some n, some d => some (n * 16 + d)
    | _, _ => none) (some 0)

def groupsOf (s : String) : Option (List Nat) :=
  if s = "" then some []
  else (strSplitChar ':' s).foldr (fun g acc =>
    match parseHexGroup g, acc with
    | some v, some vs => some (v :: vs)
    | _, _ => none) (some [])

def v6FromGroups (gs : List Nat) : Nat :=
  gs.foldl (fun acc g => acc * 65536 + g) 0

/-- Model of `ipaddress.ip_address` for IPv6 text (full or `::`
compressed; the v4-embedded form is not needed here). -/
def parseV6 (s : String) : Option Nat :=
  match strSplitSub "::" s with
  | [whole] =>
    match groupsOf whole with
    | some gs => if gs.length = 8 then some (v6FromGroups gs) else none
    | none => none
  | [l, r] =>
    match groupsOf l, groupsOf r with
    | some ls, some rs =>
      if ls.length + rs.length ≤ 7 then
        some (v6FromGroups (ls ++ List.replicate (8 - ls.length - rs.length) 0 ++ rs))
      else none
    | _, _ => none
  | _ => none

/-- Model of `ipaddress.ip_address(host)` (`none` = `ValueError`). -/
def ipParse (s : String) : Option IPAddr :=
  match parseV4 s with
  | some n => some (.v4 n)
  | none =>
    if strContainsChar s ':' then
      match parseV6 s with
      | some n => some (.v6 n)
      | none => none
    else none

/-! ### Hostname checks (`core/security.py`) -/

/-- `core/security.py::_strip_ipv6_zone` -/
def stripV6Zone (host : String) : String :=
  if strContainsChar host '%' then (strSplitChar '%' host).headD host else host

/-- `core/security.py::_is_local_hostname` -/
def isLocalHostname (host : String) : Bool :=
  let lowered := strLower host
  if lowered = "localhost" || lowered = "localhost.localdomain" then true
  else strEndsWith lowered ".local" || strEndsWith lowered ".localhost"
    || strEndsWith lowered ".internal"

/-- `core/security.py::_parse_domain_list` -/
def parseDomainList : Option String → List String
  | none => []
  | some v =>
    if v = "" then []
    else ((strSplitChar ',' v).map (fun item => strLower (strTrim item))).filter (fun item => item ≠ "")

/-- Python `str.rstrip(".")`. -/
def rstripDots (s : String) : String :=
  String.mk (s.toList.reverse.dropWhile (fun c => c = '.')).reverse

/-- `core/security.py::_domain_matches` -/
def secDomainMatches (host pat : String) : Bool :=
  let host := rstripDots (strLower host)
  let pat := rstripDots (strLower pat)
  if pat = "*" then true
  else if strStartsWith pat "*." then
    let base := strDrop pat 2
    host = base || strEndsWith host ("." ++ base)
  else host = pat

/-- `core/security.py::_host_is_denied` -/
def hostIsDenied (st : Settings) (host : String) : Bool :=
  (parseDomainList st.ssrfDenylistDomains).any (secDomainMatches host)

/-- `core/security.py::_host_is_allowed` -/
def hostIsAllowed (st : Settings) (host : String) : Bool :=
  let allowlist := parseDomainList st.ssrfAllowlistDomains
  if allowlist = [] then true
  else allowlist.any (secDomainMatches host)

/-- `core/security.py::_deny_reason_for_host` -/
def denyReasonForHost (st : Settings) (host : String) : Option String :=
  if hostIsDenied st host then some "domain_denied"
  else if !hostIsAllowed st host then some "domain_not_allowed"
  else if st.ssrfAllowPrivateIps then none
  else if isLocalHostname host then some "ssrf_blocked"
  else none

/-- Whether `parsed.username or parsed.password` is truthy. -/
def urlCredsTruthy (url : String) : Bool :=
  let n := urlNetloc url
  if strContainsChar n '@' then
    let parts := strSplitChar '@' n
    let userinfo := String.intercalate "@" parts.dropLast
    let username := strTakeWhile (fun c => c ≠ ':') userinfo
    let password : Option String :=
      if strContainsChar userinfo ':' then
        some (String.mk (userinfo.toList.dropWhile (fun c => c ≠ ':')).tail)
      else none
    username ≠ "" || (match password with | some p => p ≠ "" | none => false)
  else false

/-- `core/security.py::ensure_url_allowed`; `.error c` is a raised
`SecurityError(c)`. -/
def ensureUrlAllowed (st : Settings) (resolver : String → Except Unit (List IPAddr))
    (url : String) : Except String Unit :=
  let scheme := ((urlSplitScheme url).1).getD ""
  if !(scheme = "http" || scheme = "https") then .error "invalid_scheme"
  else if urlCredsTruthy url then .error "invalid_url"
  else
    match urlHostname url with
    | none => .error "invalid_url"
    | some host0 =>
      let host := stripV6Zone host0
      match denyReasonForHost st host with
      | some reason => .error reason
      | none =>
        let ipsE : Except String (List IPAddr) :=
          match ipParse host with
          | some ip => .ok [ip]
          | none =>
            match resolver host with
            | .ok ips => .ok ips
            | .error _ => .error "dns_failed"
        match ipsE with
        | .error e => .error e
        | .ok ips =>
          if st.ssrfAllowPrivateIps then .ok ()
          else if ips.isEmpty then .error "dns_failed"
          else if ips.any ipIsPrivate then .error "ssrf_blocked"
          else .ok ()

/-! ## Concrete instances used by the theorems below -/

/-- Occurrence count of a string in an error list. -/
def countOccur (l : List String) (s : String) : Nat :=
  (l.filter (fun x => x = s)).length

/-- A trivial stand-in for `urljoin` (the group-invalid paths never call it). -/
def ujId : String → String → String := fun _ r => r

/-- Two required selectors of one group that disagree on `item_selector`. -/
def clashGroupSelectors : List SelectorSpec :=
  [{ field := "a", selector := ".a", dataType := "string",
     groupName := some "g", itemSelector := some "x" },
   { field := "b", selector := ".b", dataType := "string",
     groupName := some "g", itemSelector := some "y" }]

/-- Two selectors sharing the field `a` with different data types. -/
def dupFieldSelectors : List SelectorSpec :=
  [{ field := "a", selector := ".a", dataType := "int", required := false },
   { field := "a", selector := ".a", dataType := "string", required := false }]

/-- Selectors for the empty-parse counterexample: `a` required, `b` optional. -/
def emptyParseSelectors : List SelectorSpec :=
  [{ field := "a", selector := ".a", dataType := "string" },
   { field := "b", selector := ".b", dataType := "string", required := false }]

/-- Settings with the token bucket configured: capacity 2, refill 1/s. -/
def rlSettings : Settings :=
  { escalationTestSettings with rateLimitCapacity := 2, rateLimitRefillPerSec := 1 }

/-- Settings with the circuit breaker disabled (`threshold = 0`). -/
def zeroThresholdSettings : Settings :=
  { escalationTestSettings with circuitBreakerThreshold := 0 }

/-- Settings with `ssrf_allow_private_ips = true` and empty SSRF lists. -/
def allowPrivSettings : Settings :=
  { escalationTestSettings with ssrfAllowPrivateIps := true }

/-- A breaker store with the open flag set for every domain. -/
def openBreaker : BreakerState :=
  ⟨fun _ => 9, fun _ => some 60, fun _ => some 300⟩

/-- The rational 11/2, i.e. the Python float `5.5`. -/
def elevenHalves : Rat := Rat.mk' 11 2

/-!
# Theorems settling the claims
-/

/-- A successful scan returns one of the scanned engines. -/
theorem nextEngineScan_mem (st : Settings) (url : String) (maxDepth : Int) :
    ∀ l e, nextEngineScan st url maxDepth l = some e → e ∈ l.map Prod.snd := by
  intro l
  induction l with
  | nil => intro e h; simp [nextEngineScan] at h
  | cons hd tl ih =>
    intro e h
    rw [nextEngineScan] at h
    split at h
    · exact absurd h (by simp)
    · split at h
      · injection h with h; simp [h]
      · simpa using Or.inr (ih e h)

/-- C1 (code bug): the worker's `_next_engine` walks
`ENGINE_TYPES = ("fast", "browser", "stealth")` — not the spec's ordered
list `[fast, stealth, browser, external]`.  With the exact settings of
`tests/integration/test_escalation.py` (`router_max_depth = 2`, stealth
enabled and allowed for `testserver`), a failure on `fast` escalates to
`browser` where the spec and the repository's own test require `stealth`,
a failure on `stealth` finalizes instead of escalating to `browser`, and
no escalation can ever reach `external`. -/
theorem nextEngine_diverges_from_spec_order :
    nextEngine escalationTestSettings "fast" "http://testserver/blocked" = some "browser" ∧
    nextEngine escalationTestSettings "stealth" "http://testserver/blocked" = none ∧
    specNextEngine escalationTestSettings "fast" "http://testserver/blocked" = some "stealth" ∧
    specNextEngine escalationTestSettings "stealth" "http://testserver/blocked" = some "browser" ∧
    (∀ current url, nextEngine escalationTestSettings current url ≠ some "external") := by
  refine ⟨by decide, by decide, by decide, by decide, ?_⟩
  intro current url h
  rw [nextEngine] at h
  cases hf : ENGINE_TYPES.findIdx? (fun e => e = current) with
  | none => rw [hf] at h; exact absurd h (by simp)
  | some index =>
    rw [hf] at h
    dsimp only at h
    split at h
    · exact absurd h (by simp)
    · have hmem := nextEngineScan_mem _ _ _ _ _ h
      rw [List.mem_map] at hmem
      obtain ⟨p, hp, hpe⟩ := hmem
      have hp' : p ∈ ENGINE_TYPES.enum := List.mem_of_mem_drop hp
      have henum : ENGINE_TYPES.enum = [(0, "fast"), (1, "browser"), (2, "stealth")] := rfl
      rw [henum] at hp'
      simp only [List.mem_cons, List.not_mem_nil, or_false] at hp'
      rcases hp' with h1 | h1 | h1 <;> subst h1 <;> exact absurd hpe (by decide)

/-- C2: every terminal write satisfies the finished-job invariant:
`_update_job` (given that its success callers always pass data), and the
two worker finalization paths (given the null result a job has when it
reaches them). -/
theorem finished_job_invariant_holds :
    (∀ j data error, (error = none → data ≠ none) →
      finishedJobInvariant (updateJob j data error)) ∧
    (∀ j reason, j.result = none →
      finishedJobInvariant (taskFinalizeFailed j reason)) ∧
    (∀ j err, j.result = none → err ≠ none →
      finishedJobInvariant (taskFailNoEscalate j err)) := by
  refine ⟨?_, ?_, ?_⟩
  · intro j data error h
    cases error with
    | none =>
      have hd := h rfl
      simp [updateJob, finishedJobInvariant, hd]
    | some e => simp [updateJob, finishedJobInvariant]
  · intro j reason h
    simp [taskFinalizeFailed, finishedJobInvariant, h]
  · intro j err h he
    simp [taskFailNoEscalate, finishedJobInvariant, h, he]

/-- C2 witness: the invariant at three concrete terminal writes. -/
theorem finished_job_invariant_witness :
    finishedJobInvariant (updateJob ⟨"running", none, none⟩ (some (.dict [])) none) ∧
    finishedJobInvariant (taskFinalizeFailed ⟨"running", none, none⟩ "http_403") ∧
    finishedJobInvariant (taskFailNoEscalate ⟨"running", none, none⟩ (some "timeout")) :=
  ⟨finished_job_invariant_holds.1 _ _ _ (fun _ => by simp),
   finished_job_invariant_holds.2.1 _ _ rfl,
   finished_job_invariant_holds.2.2 _ _ rfl (by simp)⟩

/-- C3 counterexample: with capacity 100 and refill rate 3/s the code
persists TTL `max(60, ceil(100/3*2)) = 67` seconds, while the claimed
formula `max(60, 2·C/R)` gives `200/3 ≠ 67`. -/
theorem rate_limit_ttl_counterexample :
    rateLimitTTLSeconds 100 3 = 67 ∧ specClaimTTL 100 3 = 200 / 3 ∧
      ((67 : Rat) ≠ 200 / 3) := by
  refine ⟨?_, ?_, by norm_num⟩
  · rw [rateLimitTTLSeconds, if_neg (by norm_num)]
    rw [show ((100 : Int) : Rat) / 3 * 2 = 200 / 3 by norm_num]
    rw [show (⌈(200 : Rat) / 3⌉ = 67) from by rw [Int.ceil_eq_iff]; norm_num]
    norm_num
  · rw [specClaimTTL, max_eq_right] <;> norm_num

/-- C3 (amended: the persisted TTL is the integer `max(60, ⌈2·C/R⌉)`):
for capacity `C > 0` and refill rate `R > 0`, the single atomic
acquisition on loaded state `(tokens0, ts0)` computes exactly the claimed
refill, cap, consumption, denial `retry_after_ms` and persisted state. -/
theorem acquire_rate_limit_matches_spec (st : Settings) (tokens0 : Rat)
    (ts0 nowMs : Int) (hC : 0 < st.rateLimitCapacity)
    (hR : 0 < st.rateLimitRefillPerSec) :
    acquireRateLimit st (some (tokens0, ts0)) nowMs =
      ((specAcquireRateLimit st.rateLimitCapacity st.rateLimitRefillPerSec
          tokens0 ts0 nowMs).1,
       some (specAcquireRateLimit st.rateLimitCapacity st.rateLimitRefillPerSec
          tokens0 ts0 nowMs).2) := by
  have hrefill : max 0 ((nowMs : Rat) - (ts0 : Rat)) * (st.rateLimitRefillPerSec / 1000)
      = max 0 (((nowMs - ts0 : Int) : Rat) * st.rateLimitRefillPerSec / 1000) := by
    push_cast
    rcases le_total ((nowMs : Rat) - ts0) 0 with hd | hd
    · rw [max_eq_left hd, zero_mul, max_eq_left]
      exact div_nonpos_of_nonpos_of_nonneg
        (mul_nonpos_of_nonpos_of_nonneg hd (le_of_lt hR)) (by norm_num)
    · rw [max_eq_right hd, max_eq_right, mul_div_assoc]
      positivity
  have httl : rateLimitTTLSeconds st.rateLimitCapacity st.rateLimitRefillPerSec
      = max 60 ⌈2 * (st.rateLimitCapacity : Rat) / st.rateLimitRefillPerSec⌉ := by
    rw [rateLimitTTLSeconds, if_neg (not_le.mpr hR)]
    rw [show (st.rateLimitCapacity : Rat) / st.rateLimitRefillPerSec * 2
      = 2 * (st.rateLimitCapacity : Rat) / st.rateLimitRefillPerSec by ring]
  simp only [acquireRateLimit, rateLimitLuaStep, specAcquireRateLimit]
  rw [if_neg (by simp [not_le.mpr hC, not_le.mpr hR])]
  rw [httl, hrefill]
  split
  · rfl
  · rfl

/-- C3 witness: the amended theorem applied at capacity 2, rate 1,
loaded tokens 0, timestamps 0 and 250. -/
theorem acquire_rate_limit_matches_spec_witness :
    acquireRateLimit rlSettings (some (0, 0)) 250 =
      ((specAcquireRateLimit 2 1 0 0 250).1, some (specAcquireRateLimit 2 1 0 0 250).2) :=
  acquire_rate_limit_matches_spec rlSettings 0 0 250 (by decide) (by decide)

/-- C4 counterexample: the failure counter is not incremented "exactly
when the status is 403 or 429" — with `circuit_breaker_threshold = 0`
(a legal configuration) a 403 leaves the counter untouched. -/
theorem record_failure_counterexample :
    (recordFailure zeroThresholdSettings BreakerState.empty "a.example"
      (some 403)).failures "a.example" = 0 := by
  rw [recordFailure]
  norm_num [BreakerState.empty, zeroThresholdSettings, escalationTestSettings]

/-- C4 (amended: under a positive breaker threshold): recording a response
increments the per-domain counter exactly for status 403/429, stamps the
window TTL on the first increment, opens the breaker with the cooldown
TTL at the threshold, and an open flag makes `guard` return
`circuit_open` for that domain regardless of the rate limiter. -/
theorem record_failure_and_guard (st : Settings) (s : BreakerState)
    (domain : String) (status : Option Int)
    (hthr : 0 < st.circuitBreakerThreshold) :
    ((status = some 403 ∨ status = some 429) →
      ((recordFailure st s domain status).failures domain = s.failures domain + 1 ∧
       (s.failures domain = 0 →
         (recordFailure st s domain status).failTTL domain
           = some st.circuitBreakerWindowSec) ∧
       (st.circuitBreakerThreshold ≤ (s.failures domain : Int) + 1 →
         (recordFailure st s domain status).openTTL domain
           = some st.circuitBreakerCoolSec))) ∧
    (¬(status = some 403 ∨ status = some 429) →
      recordFailure st s domain status = s) ∧
    (∀ rateOk url d, extractDomain url = some d → isCircuitOpen s d = true →
      guardRequest s rateOk url = some "circuit_open") := by
  refine ⟨?_, ?_, ?_⟩
  · intro hstat
    have hc : (!(decide (status = some 403) || decide (status = some 429))) = false := by
      rcases hstat with h | h <;> simp [h]
    rw [recordFailure, hc]
    simp only [Bool.false_eq_true, if_false, if_neg (not_le.mpr hthr)]
    refine ⟨?_, ?_, ?_⟩
    · split <;> split <;> simp [Function.update_same]
    · intro h0
      have h1 : s.failures domain + 1 = 1 := by omega
      rw [if_pos h1]
      split <;> simp [Function.update_same]
    · intro hle
      have : st.circuitBreakerThreshold ≤ ((s.failures domain + 1 : Nat) : Int) := by
        push_cast; omega
      rw [if_pos this]
      simp [Function.update_same]
  · intro hstat
    have hc : (!(decide (status = some 403) || decide (status = some 429))) = true := by
      push_neg at hstat
      simp [hstat.1, hstat.2]
    rw [recordFailure, hc]
    simp
  · intro rateOk url d hd hopen
    rw [guardRequest, hd]
    simp [hopen]

/-- C4 witness: the amended theorem at the default settings, the empty
store and a concrete 403 on `a.example`, plus the guard short-circuit on
an all-open store. -/
theorem record_failure_and_guard_witness :
    (recordFailure escalationTestSettings BreakerState.empty "a.example"
      (some 403)).failures "a.example" = BreakerState.empty.failures "a.example" + 1 ∧
    guardRequest openBreaker (fun _ => false) "http://a.example/x" = some "circuit_open" :=
  ⟨((record_failure_and_guard escalationTestSettings BreakerState.empty "a.example"
      (some 403) (by decide)).1 (Or.inl rfl)).1,
   (record_failure_and_guard escalationTestSettings openBreaker "a.example"
      (some 403) (by decide)).2.2 (fun _ => false) "http://a.example/x" "a.example"
      (by decide) (by decide)⟩

/-- C5 counterexample: with status 200, a required selector `a` whose
field has no value, and an optional `b` that does have one, the claim's
condition holds ("no value for any required field") yet the code returns
`null`, because `detect_empty_parse` checks the whole data dict. -/
theorem detect_empty_parse_counterexample :
    detectEmptyParse (some 200) (some [("a", .null), ("b", .str "x")])
      emptyParseSelectors [] = none ∧
    specEmptyParseCond (some 200) (some [("a", .null), ("b", .str "x")])
      emptyParseSelectors [] = true := by
  constructor <;> rfl

/-- C5 (amended: the empty-parse test looks at the whole parsed dict, not
just required fields): `detect_empty_parse` returns `empty_parse` iff
status is null/200, some selector is required, `parsel_unavailable` is
absent from the errors, and the data is null, empty, or valueless
everywhere; any other result is `null`. -/
theorem detect_empty_parse_iff (status : Option Int)
    (data : Option (List (String × PVal))) (selectors : List SelectorSpec)
    (errors : List String) :
    (detectEmptyParse status data selectors errors = some "empty_parse" ↔
      ((status = none ∨ status = some 200) ∧ hasRequiredFields selectors = true ∧
       errors.any (fun e => e = "parsel_unavailable") = false ∧
       (data = none ∨ ∃ d, data = some d ∧
         (d = [] ∨ dataHasValue (.dict d) = false)))) ∧
    (∀ r, detectEmptyParse status data selectors errors = some r →
      r = "empty_parse") := by
  have herr : (!(List.isEmpty errors) && errors.any (fun e => e = "parsel_unavailable"))
      = errors.any (fun e => e = "parsel_unavailable") := by
    cases errors <;> simp
  constructor
  · constructor
    · intro h
      rw [detectEmptyParse.eq_def, herr] at h
      split_ifs at h with h1 h2 h3
      have hs : status = none ∨ status = some 200 := by
        by_contra hc
        push_neg at hc
        exact h1 (by simp [hc.1, hc.2])
      have hreq : hasRequiredFields selectors = true := by
        revert h2
        cases hasRequiredFields selectors <;> simp
      have hpu : errors.any (fun e => e = "parsel_unavailable") = false := by
        revert h3
        cases errors.any (fun e => e = "parsel_unavailable") <;> simp
      refine ⟨hs, hreq, hpu, ?_⟩
      rcases data with _ | d
      · exact Or.inl rfl
      · refine Or.inr ⟨d, rfl, ?_⟩
        dsimp only at h
        split_ifs at h with h4 h5
        · exact Or.inl (List.isEmpty_iff.mp h4)
        · refine Or.inr ?_
          revert h5
          cases dataHasValue (.dict d) <;> simp
    · rintro ⟨hs, hreq, hpu, hdata⟩
      rw [detectEmptyParse.eq_def, herr]
      rw [if_neg (by rcases hs with h | h <;> simp [h])]
      rw [if_neg (by simp [hreq])]
      rw [if_neg (by simp [hpu])]
      rcases hdata with h | ⟨d, rfl, hd⟩
      · rw [h]
      · dsimp only
        rcases hd with he | hv
        · rw [if_pos (by simp [he])]
        · by_cases hde : d.isEmpty = true
          · rw [if_pos hde]
          · rw [if_neg hde, if_pos (by simp [hv])]
  · intro r h
    rw [detectEmptyParse.eq_def, herr] at h
    by_cases h1 : (!(decide (status = none) || decide (status = some 200))) = true
    · rw [if_pos h1] at h
      exact absurd h (by simp)
    · rw [if_neg h1] at h
      by_cases h2 : (!hasRequiredFields selectors) = true
      · rw [if_pos h2] at h
        exact absurd h (by simp)
      · rw [if_neg h2] at h
        by_cases h3 : (errors.any fun e => decide (e = "parsel_unavailable")) = true
        · rw [if_pos h3] at h
          exact absurd h (by simp)
        · rw [if_neg h3] at h
          rcases data with _ | d
          · injection h with h
            exact h.symm
          · dsimp only at h
            by_cases h4 : d.isEmpty = true
            · rw [if_pos h4] at h
              injection h with h
              exact h.symm
            · rw [if_neg h4] at h
              by_cases h5 : (!dataHasValue (PVal.dict d)) = true
              · rw [if_pos h5] at h
                injection h with h
                exact h.symm
              · rw [if_neg h5] at h
                exact absurd h (by simp)

/-- C5 witness: the amended characterization applied at a concrete empty
parse (status 200, empty data, a required selector). -/
theorem detect_empty_parse_iff_witness :
    detectEmptyParse (some 200) (some []) emptyParseSelectors [] = some "empty_parse" :=
  (detect_empty_parse_iff (some 200) (some []) emptyParseSelectors []).1.mpr
    ⟨Or.inr rfl, rfl, rfl, Or.inr ⟨[], rfl, Or.inl rfl⟩⟩

/-- C6 (code bug): the spec (§4.4.4) counts every `vision_*` reason as
ban-indicating, and `browser_engine.py` calls
`record_identity_failure_async` with such reasons — but `_is_ban_reason`
has no `vision_` case, so the call is a no-op: the identity keeps its
`failure_count`, `last_failed_at` and `active` flag unchanged. -/
theorem vision_reason_does_not_record_failure :
    recordIdentityFailure escalationTestSettings sampleIdentity
      (some "vision_ocr_block") 7 = sampleIdentity ∧
    recordIdentityFailure escalationTestSettings sampleIdentity
      (some "vision_yolo:captcha") 7 = sampleIdentity ∧
    isBanReason (some "vision_ocr_block") = false ∧
    specBanReason "vision_ocr_block" = true ∧
    specBanReason "vision_yolo:captcha" = true ∧
    recordIdentityFailure escalationTestSettings sampleIdentity
      (some "http_403") 7 ≠ sampleIdentity := by
  refine ⟨by decide, by decide, by decide, by decide, by decide, by decide⟩

/-- C10: when no host can be extracted from the URL, `guard_request`
admits the request immediately: it returns `null` for every breaker store
and every rate-limiter behavior, so neither the open flag nor the token
bucket is ever consulted for host-less URLs. -/
theorem guard_admits_hostless_urls (url : String)
    (h : extractDomain url = none) :
    ∀ s rateOk, guardRequest s rateOk url = none := by
  intro s rateOk
  rw [guardRequest, h]

/-- C10 witness: a scheme-less URL and a fragment-only URL are admitted
even with the breaker open everywhere and the rate limiter denying. -/
theorem guard_admits_hostless_urls_witness :
    extractDomain "example.com" = none ∧
    guardRequest openBreaker (fun _ => false) "example.com" = none ∧
    guardRequest openBreaker (fun _ => false) "#fragment" = none :=
  ⟨by decide,
   guard_admits_hostless_urls "example.com" (by decide) openBreaker (fun _ => false),
   guard_admits_hostless_urls "#fragment" (by decide) openBreaker (fun _ => false)⟩

/-- C7: with `allow_private_ips = false` (and the default empty
allow/deny lists), `ensure_url_allowed` raises `SecurityError` for every
URL whose host is `localhost` or ends in `.local`/`.localhost`/`.internal`,
for every URL whose host is a private-range IP literal, and for every URL
whose host resolves only to private/loopback/link-local/multicast/
reserved/unspecified/site-local addresses; with `allow_private_ips = true`
none of these raise (given the host parses or resolves).  The final
conjuncts check that the blocked ranges cover 127.0.0.0/8, ::1, 10/8,
172.16/12 and 192.168/16. -/
theorem ensure_url_allowed_ssrf (st : Settings)
    (resolver : String → Except Unit (List IPAddr)) (url host : String)
    (hscheme : (urlSplitScheme url).1.getD "" = "http" ∨
      (urlSplitScheme url).1.getD "" = "https")
    (hcreds : urlCredsTruthy url = false)
    (hhost : urlHostname url = some host)
    (hdeny : st.ssrfDenylistDomains = none)
    (hallow : st.ssrfAllowlistDomains = none) :
    (st.ssrfAllowPrivateIps = false →
      ((isLocalHostname (stripV6Zone host) = true →
         ensureUrlAllowed st resolver url = .error "ssrf_blocked") ∧
       (∀ ip, ipParse (stripV6Zone host) = some ip → ipIsPrivate ip = true →
         ensureUrlAllowed st resolver url = .error "ssrf_blocked") ∧
       (∀ ips, ipParse (stripV6Zone host) = none →
         resolver (stripV6Zone host) = .ok ips → ips ≠ [] →
         (∀ ip ∈ ips, ipIsPrivate ip = true) →
         ensureUrlAllowed st resolver url = .error "ssrf_blocked"))) ∧
    (st.ssrfAllowPrivateIps = true →
      ((ipParse (stripV6Zone host)).isSome = true ∨
        (∃ ips, resolver (stripV6Zone host) = .ok ips) →
       ensureUrlAllowed st resolver url = .ok ())) ∧
    (ipIsPrivate (.v4 (v4Val 127 0 0 1)) = true ∧
     ipIsPrivate (.v6 1) = true ∧
     ipIsPrivate (.v4 (v4Val 10 0 0 1)) = true ∧
     ipIsPrivate (.v4 (v4Val 172 16 0 1)) = true ∧
     ipIsPrivate (.v4 (v4Val 192 168 0 1)) = true) := by
  have hden : hostIsDenied st (stripV6Zone host) = false := by
    simp [hostIsDenied, hdeny, parseDomainList]
  have hal : hostIsAllowed st (stripV6Zone host) = true := by
    simp [hostIsAllowed, hallow, parseDomainList]
  have hmain : ensureUrlAllowed st resolver url =
      (match denyReasonForHost st (stripV6Zone host) with
       | some reason => .error reason
       | none =>
         match (match ipParse (stripV6Zone host) with
                | some ip => Except.ok [ip]
                | none =>
                  match resolver (stripV6Zone host) with
                  | .ok ips => Except.ok ips
                  | .error _ => Except.error "dns_failed") with
         | .error e => .error e
         | .ok ips =>
           if st.ssrfAllowPrivateIps then Except.ok ()
           else if ips.isEmpty then Except.error "dns_failed"
           else if ips.any ipIsPrivate then Except.error "ssrf_blocked"
           else Except.ok ()) := by
    rw [ensureUrlAllowed]
    rw [if_neg (by rcases hscheme with h | h <;> simp [h])]
    rw [if_neg (by simp [hcreds])]
    rw [hhost]
  refine ⟨?_, ?_, by decide, by decide, by decide, by decide, by decide⟩
  · intro hpriv
    have hdr : denyReasonForHost st (stripV6Zone host) =
        (if isLocalHostname (stripV6Zone host) then some "ssrf_blocked" else none) := by
      rw [denyReasonForHost, if_neg (by simp [hden]), if_neg (by simp [hal]),
        if_neg (by simp [hpriv])]
    refine ⟨?_, ?_, ?_⟩
    · intro hlocal
      rw [hmain, hdr, if_pos hlocal]
    · intro ip hip hprivate
      by_cases hlocal : isLocalHostname (stripV6Zone host) = true
      · rw [hmain, hdr, if_pos hlocal]
      · rw [hmain, hdr, if_neg hlocal, hip]
        dsimp only
        rw [if_neg (by simp [hpriv]), if_neg (by simp),
          if_pos (by simp [hprivate])]
    · intro ips hip hres hne hall
      by_cases hlocal : isLocalHostname (stripV6Zone host) = true
      · rw [hmain, hdr, if_pos hlocal]
      · rw [hmain, hdr, if_neg hlocal, hip, hres]
        dsimp only
        rw [if_neg (by simp [hpriv]), if_neg (by simp [List.isEmpty_iff, hne])]
        rw [if_pos]
        rcases ips with _ | ⟨ip, rest⟩
        · exact absurd rfl hne
        · simp only [List.any_cons, Bool.or_eq_true]
          exact Or.inl (hall ip (by simp))
  · intro hpriv hsome
    have hdr : denyReasonForHost st (stripV6Zone host) = none := by
      rw [denyReasonForHost, if_neg (by simp [hden]), if_neg (by simp [hal]),
        if_pos (by simp [hpriv])]
    rw [hmain, hdr]
    rcases hsome with hip | ⟨ips, hres⟩
    · obtain ⟨ip, hip⟩ := Option.isSome_iff_exists.mp hip
      rw [hip]
      dsimp only
      rw [if_pos (by simp [hpriv])]
    · rcases hip : ipParse (stripV6Zone host) with _ | ip
      · rw [hres]
        dsimp only
        rw [if_pos (by simp [hpriv])]
      · dsimp only
        rw [if_pos (by simp [hpriv])]

/-- C7 witness: the theorem applied at four concrete URLs — a local
hostname, a 10/8 IP literal, a hostname resolving only to 10.0.0.8, and
the same local hostname with `allow_private_ips = true`. -/
theorem ensure_url_allowed_ssrf_witness :
    ensureUrlAllowed escalationTestSettings (fun _ => .ok []) "http://localhost/x"
      = .error "ssrf_blocked" ∧
    ensureUrlAllowed escalationTestSettings (fun _ => .ok []) "http://10.0.0.8/x"
      = .error "ssrf_blocked" ∧
    ensureUrlAllowed escalationTestSettings (fun _ => .ok [.v4 (v4Val 10 0 0 8)])
      "http://svc.internal.example/x" = .error "ssrf_blocked" ∧
    ensureUrlAllowed allowPrivSettings (fun _ => .ok [.v4 (v4Val 127 0 0 1)])
      "http://localhost/x" = .ok () :=
  ⟨((ensure_url_allowed_ssrf escalationTestSettings (fun _ => .ok [])
      "http://localhost/x" "localhost" (Or.inl (by decide)) (by decide) (by decide)
      rfl rfl).1 rfl).1 (by decide),
   ((ensure_url_allowed_ssrf escalationTestSettings (fun _ => .ok [])
      "http://10.0.0.8/x" "10.0.0.8" (Or.inl (by decide)) (by decide) (by decide)
      rfl rfl).1 rfl).2.1 (.v4 (v4Val 10 0 0 8)) (by decide) (by decide),
   ((ensure_url_allowed_ssrf escalationTestSettings (fun _ => .ok [.v4 (v4Val 10 0 0 8)])
      "http://svc.internal.example/x" "svc.internal.example" (Or.inl (by decide))
      (by decide) (by decide) rfl rfl).1 rfl).2.2 [.v4 (v4Val 10 0 0 8)] (by decide)
      rfl (by decide) (by decide),
   (ensure_url_allowed_ssrf allowPrivSettings (fun _ => .ok [.v4 (v4Val 127 0 0 1)])
      "http://localhost/x" "localhost" (Or.inl (by decide)) (by decide) (by decide)
      rfl rfl).2.1 rfl (Or.inr ⟨[.v4 (v4Val 127 0 0 1)], rfl⟩)⟩

/-! ### Helper lemmas: dictionaries, error counting, error-code shapes -/

theorem dictGet?_cons (a : String × PVal) (tl : List (String × PVal))
    (k' : String) :
    dictGet? (a :: tl) k' = if a.1 = k' then some a.2 else dictGet? tl k' := by
  rw [dictGet?]
  by_cases h : a.1 = k'
  · rw [List.find?_cons_of_pos _ (by simp [h]), if_pos h]
    rfl
  · rw [List.find?_cons_of_neg _ (by simp [h]), if_neg h]
    rfl

theorem dictGet?_map_set_ne (tl : List (String × PVal)) (k : String) (v : PVal)
    (k' : String) (hne : ¬(k' = k)) :
    dictGet? (tl.map (fun p => if p.1 = k then (k, v) else p)) k' = dictGet? tl k' := by
  induction tl with
  | nil => rfl
  | cons hd tl ih =>
    by_cases hk : hd.1 = k
    · rw [List.map_cons, if_pos hk, dictGet?_cons, dictGet?_cons]
      rw [if_neg (fun hx => hne hx.symm), if_neg (fun hx => hne (hk ▸ hx).symm)]
      exact ih
    · rw [List.map_cons, if_neg hk, dictGet?_cons, dictGet?_cons]
      by_cases hx : hd.1 = k'
      · rw [if_pos hx, if_pos hx]
      · rw [if_neg hx, if_neg hx]
        exact ih

theorem dictGet?_map_set_self (tl : List (String × PVal)) (k : String) (v : PVal)
    (hany : tl.any (fun p => p.1 = k) = true) :
    dictGet? (tl.map (fun p => if p.1 = k then (k, v) else p)) k = some v := by
  induction tl with
  | nil => simp at hany
  | cons hd tl ih =>
    by_cases hk : hd.1 = k
    · rw [List.map_cons, if_pos hk, dictGet?_cons, if_pos rfl]
    · rw [List.map_cons, if_neg hk, dictGet?_cons, if_neg hk]
      apply ih
      revert hany
      simp only [List.any_cons, Bool.or_eq_true, decide_eq_true_eq]
      rintro (h | h)
      · exact absurd h hk
      · exact h

theorem dictGet?_append_single_ne (d : List (String × PVal)) (k : String)
    (v : PVal) (k' : String) (hne : ¬(k' = k)) :
    dictGet? (d ++ [(k, v)]) k' = dictGet? d k' := by
  induction d with
  | nil =>
    rw [List.nil_append, dictGet?_cons, if_neg (fun hx => hne hx.symm)]
  | cons hd tl ih =>
    rw [List.cons_append, dictGet?_cons, dictGet?_cons]
    by_cases hx : hd.1 = k'
    · rw [if_pos hx, if_pos hx]
    · rw [if_neg hx, if_neg hx]
      exact ih

theorem dictGet?_append_single_self (d : List (String × PVal)) (k : String)
    (v : PVal) (hany : d.any (fun p => p.1 = k) = false) :
    dictGet? (d ++ [(k, v)]) k = some v := by
  induction d with
  | nil =>
    rw [List.nil_append, dictGet?_cons, if_pos rfl]
  | cons hd tl ih =>
    rw [List.any_cons] at hany
    have h1 : ¬(hd.1 = k) := by
      intro hc
      rw [hc] at hany
      simp at hany
    have h2 : tl.any (fun p => p.1 = k) = false := by
      rcases hb : tl.any (fun p => p.1 = k)
      · rfl
      · rw [hb] at hany
        simp at hany
    rw [List.cons_append, dictGet?_cons, if_neg h1]
    exact ih h2

theorem dictGet?_dictSet (d : List (String × PVal)) (k : String) (v : PVal)
    (k' : String) :
    dictGet? (dictSet d k v) k' = if k' = k then some v else dictGet? d k' := by
  rw [dictSet]
  by_cases hany : d.any (fun p => p.1 = k) = true
  · rw [if_pos hany]
    by_cases h : k' = k
    · subst h
      rw [if_pos rfl]
      exact dictGet?_map_set_self d k' v hany
    · rw [if_neg h]
      exact dictGet?_map_set_ne d k v k' h
  · rw [if_neg hany]
    by_cases h : k' = k
    · subst h
      rw [if_pos rfl]
      refine dictGet?_append_single_self d k' v ?_
      rcases hb : d.any (fun p => p.1 = k')
      · rfl
      · exact absurd hb hany
    · rw [if_neg h]
      exact dictGet?_append_single_ne d k v k' h

theorem countOccur_append (a b : List String) (s : String) :
    countOccur (a ++ b) s = countOccur a s + countOccur b s := by
  simp [countOccur, List.filter_append]

theorem countOccur_nil (s : String) : countOccur [] s = 0 := rfl

theorem countOccur_single_ne {e s : String} (h : ¬(e = s)) : countOccur [e] s = 0 := by
  simp [countOccur, h]

theorem countOccur_single_eq (s : String) : countOccur [s] s = 1 := by
  simp [countOccur]

theorem listAppend_ne {a b x y : List Char} (i : Nat) (hia : i < a.length)
    (hib : i < b.length) (hne : a[i]? ≠ b[i]?) : a ++ x ≠ b ++ y := by
  intro h
  apply hne
  have ha : (a ++ x)[i]? = a[i]? := by
    rw [List.getElem?_append]
    exact if_pos hia
  have hb2 : (b ++ y)[i]? = b[i]? := by
    rw [List.getElem?_append]
    exact if_pos hib
  rw [← ha, h, hb2]

theorem missing_ne_group_sel (x y : String) :
    ¬("missing:" ++ x = "missing_group_selector:" ++ y) := by
  intro h
  have hd := congrArg String.data h
  rw [String.data_append, String.data_append] at hd
  exact listAppend_ne 7 (by decide) (by decide) (by decide) hd

theorem type_ne_group_sel (x y : String) :
    ¬("type:" ++ x = "missing_group_selector:" ++ y) := by
  intro h
  have hd := congrArg String.data h
  rw [String.data_append, String.data_append] at hd
  exact listAppend_ne 0 (by decide) (by decide) (by decide) hd

theorem group_sel_inj {x y : String} :
    ("missing_group_selector:" ++ x = "missing_group_selector:" ++ y) → x = y := by
  intro h
  have hd := congrArg String.data h
  rw [String.data_append, String.data_append] at hd
  have h2 := List.append_cancel_left hd
  cases x
  cases y
  exact congrArg String.mk h2

/-! ### C8 infrastructure: the parse folds never fabricate or duplicate
`missing_group_selector` errors -/

theorem parseFlat_count (uj : String → String → String) (tree : DomNode)
    (baseUrl : Option String) (g : String) : ∀ fs data errs,
    countOccur (parseFlat uj tree baseUrl fs data errs).2
        ("missing_group_selector:" ++ g)
      = countOccur errs ("missing_group_selector:" ++ g) := by
  intro fs
  induction fs with
  | nil => intro data errs; rfl
  | cons spec rest ih =>
    intro data errs
    rw [parseFlat]
    split
    · split
      · rw [ih, countOccur_append, countOccur_single_ne (missing_ne_group_sel _ _),
          Nat.add_zero]
      · exact ih _ _
    · split
      · exact ih _ _
      · rw [ih, countOccur_append, countOccur_single_ne (type_ne_group_sel _ _),
          Nat.add_zero]

theorem parseItemFields_count (uj : String → String → String) (item : DomNode)
    (baseUrl : Option String) (g' : String) (idx : Nat) (g : String) :
    ∀ specs itemData errs,
    countOccur (parseItemFields uj item baseUrl g' idx specs itemData errs).2
        ("missing_group_selector:" ++ g)
      = countOccur errs ("missing_group_selector:" ++ g) := by
  intro specs
  induction specs with
  | nil => intro itemData errs; rfl
  | cons spec rest ih =>
    intro itemData errs
    rw [parseItemFields]
    split
    · split
      · rw [ih, countOccur_append, countOccur_single_ne (missing_ne_group_sel _ _),
          Nat.add_zero]
      · exact ih _ _
    · split
      · exact ih _ _
      · rw [ih, countOccur_append, countOccur_single_ne (type_ne_group_sel _ _),
          Nat.add_zero]

theorem parseGroupItems_count (uj : String → String → String)
    (baseUrl : Option String) (g' : String) (specs : List SelectorSpec)
    (g : String) : ∀ items idx acc errs,
    countOccur (parseGroupItems uj baseUrl g' specs items idx acc errs).2
        ("missing_group_selector:" ++ g)
      = countOccur errs ("missing_group_selector:" ++ g) := by
  intro items
  induction items with
  | nil => intro idx acc errs; rfl
  | cons item rest ih =>
    intro idx acc errs
    rw [parseGroupItems, ih, countOccur_append, parseItemFields_count]
    rw [countOccur_nil, Nat.add_zero]

theorem parseGroups_count_ne (uj : String → String → String) (tree : DomNode)
    (baseUrl : Option String) (g : String) : ∀ gl data errs,
    (∀ p ∈ gl, ¬(p.1 = g)) →
    countOccur (parseGroups uj tree baseUrl gl data errs).2
        ("missing_group_selector:" ++ g)
      = countOccur errs ("missing_group_selector:" ++ g) := by
  intro gl
  induction gl with
  | nil => intro data errs _; rfl
  | cons p rest ih =>
    intro data errs hne
    obtain ⟨g', specs'⟩ := p
    have hg' : ¬(g' = g) := hne (g', specs') (by simp)
    have hrest : ∀ p ∈ rest, ¬(p.1 = g) := fun p hp => hne p (by simp [hp])
    rw [parseGroups]
    split
    · rw [ih _ _ hrest]
      split
      · rw [countOccur_append,
          countOccur_single_ne (fun hx => hg' (group_sel_inj hx)), Nat.add_zero]
      · rfl
    · split
      · rw [ih _ _ hrest]
        split
        · rw [countOccur_append, countOccur_single_ne (missing_ne_group_sel _ _),
            Nat.add_zero]
        · rfl
      · rw [ih _ _ hrest, countOccur_append, parseGroupItems_count, countOccur_nil,
          Nat.add_zero]

theorem parseGroups_get_ne (uj : String → String → String) (tree : DomNode)
    (baseUrl : Option String) (g : String) : ∀ gl data errs,
    (∀ p ∈ gl, ¬(p.1 = g)) →
    dictGet? (parseGroups uj tree baseUrl gl data errs).1 g = dictGet? data g := by
  intro gl
  induction gl with
  | nil => intro data errs _; rfl
  | cons p rest ih =>
    intro data errs hne
    obtain ⟨g', specs'⟩ := p
    have hg' : ¬(g = g') := fun hx => hne (g', specs') (by simp) hx.symm
    have hrest : ∀ p ∈ rest, ¬(p.1 = g) := fun p hp => hne p (by simp [hp])
    rw [parseGroups]
    split
    · rw [ih _ _ hrest, dictGet?_dictSet, if_neg hg']
    · split
      · rw [ih _ _ hrest, dictGet?_dictSet, if_neg hg']
      · rw [ih _ _ hrest, dictGet?_dictSet, if_neg hg']

theorem parseGroups_invalid (uj : String → String → String) (tree : DomNode)
    (baseUrl : Option String) (g : String) (specs : List SelectorSpec) :
    ∀ gl data errs, (g, specs) ∈ gl → (gl.map Prod.fst).Nodup →
    resolveItemSelector specs = none →
    countOccur (parseGroups uj tree baseUrl gl data errs).2
        ("missing_group_selector:" ++ g)
      = countOccur errs ("missing_group_selector:" ++ g)
        + (if specs.any (fun s => s.required) then 1 else 0) ∧
    dictGet? (parseGroups uj tree baseUrl gl data errs).1 g
      = some (.list []) := by
  intro gl
  induction gl with
  | nil => intro data errs hmem; exact absurd hmem (by simp)
  | cons p rest ih =>
    intro data errs hmem hnodup hinv
    rw [List.map_cons, List.nodup_cons] at hnodup
    rcases List.mem_cons.mp hmem with hhead | htail
    · subst hhead
      have hrest : ∀ q ∈ rest, ¬(q.1 = g) := by
        intro q hq hqe
        have hmm : q.1 ∈ rest.map Prod.fst := List.mem_map_of_mem Prod.fst hq
        rw [hqe] at hmm
        exact hnodup.1 hmm
      rw [parseGroups, hinv]
      constructor
      · rw [parseGroups_count_ne _ _ _ _ _ _ _ hrest]
        split
        · rw [countOccur_append, countOccur_single_eq]
        · rw [Nat.add_zero]
      · rw [parseGroups_get_ne _ _ _ _ _ _ _ hrest, dictGet?_dictSet, if_pos rfl]
    · have hg' : ¬(p.1 = g) := by
        intro hx
        apply hnodup.1
        rw [hx]
        exact List.mem_map_of_mem Prod.fst htail
      obtain ⟨g₁, specs₁⟩ := p
      rw [parseGroups]
      split
      · have h2 := ih (dictSet data g₁ (PVal.list []))
          (if (specs₁.any fun spec => spec.required) = true then
            errs ++ ["missing_group_selector:" ++ g₁] else errs)
          htail hnodup.2 hinv
        refine ⟨?_, h2.2⟩
        rw [h2.1]
        split
        · rw [countOccur_append,
            countOccur_single_ne (fun hx => hg' (group_sel_inj hx)), Nat.add_zero]
        · rfl
      · rename_i itemSel heq2
        split
        · have h2 := ih (dictSet data g₁ (PVal.list []))
            (if (specs₁.any fun spec => spec.required) = true then
              errs ++ ["missing:" ++ g₁] else errs)
            htail hnodup.2 hinv
          refine ⟨?_, h2.2⟩
          rw [h2.1]
          split
          · rw [countOccur_append, countOccur_single_ne (missing_ne_group_sel _ _),
              Nat.add_zero]
          · rfl
        · have h2 := ih
            (dictSet data g₁ (PVal.list
              (parseGroupItems uj baseUrl g₁ specs₁
                (tree.cssAll (stripCssTag itemSel)) 0 [] []).1))
            (errs ++ (parseGroupItems uj baseUrl g₁ specs₁
              (tree.cssAll (stripCssTag itemSel)) 0 [] []).2)
            htail hnodup.2 hinv
          refine ⟨?_, h2.2⟩
          rw [h2.1, countOccur_append, parseGroupItems_count, countOccur_nil,
            Nat.add_zero]

theorem groupsInsert_keys (groups : List (String × List SelectorSpec))
    (g : String) (spec : SelectorSpec) :
    (groupsInsert groups g spec).map Prod.fst =
      if groups.any (fun p => p.1 = g) then groups.map Prod.fst
      else groups.map Prod.fst ++ [g] := by
  rw [groupsInsert]
  split
  · rw [List.map_map]
    apply List.map_congr_left
    intro p _
    by_cases h : p.1 = g
    · simp [h]
    · simp [h]
  · rw [List.map_append]
    rfl

theorem splitSelectorsAux_nodup : ∀ (sel : List SelectorSpec) flat groups,
    (groups.map Prod.fst).Nodup →
    (((splitSelectorsAux flat groups sel).2).map Prod.fst).Nodup := by
  intro sel
  induction sel with
  | nil => intro flat groups h; exact h
  | cons spec rest ih =>
    intro flat groups h
    rw [splitSelectorsAux]
    cases hg : spec.groupName with
    | none => exact ih _ _ h
    | some g =>
      dsimp only
      by_cases hge : g = ""
      · rw [if_pos hge]
        exact ih _ _ h
      · rw [if_neg hge]
        apply ih
        rw [groupsInsert_keys]
        split
        · exact h
        · rename_i hany
          rw [List.nodup_append]
          refine ⟨h, List.nodup_singleton g, ?_⟩
          intro a ha hb
          rw [List.mem_singleton] at hb
          subst hb
          rw [List.mem_map] at ha
          obtain ⟨p, hp, hpe⟩ := ha
          rw [Bool.not_eq_true, List.any_eq_false] at hany
          exact hany p hp (by simp [hpe])

theorem splitSelectors_nodup (selectors : List SelectorSpec) :
    (((splitSelectors selectors).2).map Prod.fst).Nodup :=
  splitSelectorsAux_nodup selectors [] [] (by simp)

/-- C8 counterexample: a group `g` of two required selectors disagreeing
on `item_selector` emits one `missing_group_selector:g` error in total —
not one per required selector (which would be two). -/
theorem parse_group_error_counterexample :
    (parseSelectolax ujId emptyDom clashGroupSelectors none).2
      = ["missing_group_selector:g"] ∧
    countOccur (parseSelectolax ujId emptyDom clashGroupSelectors none).2
      "missing_group_selector:g" = 1 ∧
    (clashGroupSelectors.filter (fun s => s.required)).length = 2 ∧
    (1 : Nat) ≠ 2 := by
  refine ⟨rfl, rfl, rfl, by decide⟩

/-- C8 (amended: one error per invalid group, not per required selector):
for every parse, every group whose selectors do not share exactly one
`item_selector` is skipped — its value is `[]` — and the error list
contains exactly one `missing_group_selector:<group>` when the group has
a required selector, none otherwise. -/
theorem parse_invalid_group_skipped (uj : String → String → String)
    (tree : DomNode) (baseUrl : Option String) (selectors : List SelectorSpec)
    (g : String) (specs : List SelectorSpec)
    (hmem : (g, specs) ∈ (splitSelectors selectors).2)
    (hinv : resolveItemSelector specs = none) :
    countOccur (parseSelectolax uj tree selectors baseUrl).2
        ("missing_group_selector:" ++ g)
      = (if specs.any (fun s => s.required) then 1 else 0) ∧
    dictGet? (parseSelectolax uj tree selectors baseUrl).1 g
      = some (.list []) := by
  rw [parseSelectolax]
  have h := parseGroups_invalid uj tree baseUrl g specs
    (splitSelectors selectors).2
    (parseFlat uj tree baseUrl (splitSelectors selectors).1 [] []).1
    (parseFlat uj tree baseUrl (splitSelectors selectors).1 [] []).2
    hmem (splitSelectors_nodup selectors) hinv
  refine ⟨?_, h.2⟩
  rw [h.1, parseFlat_count, countOccur_nil, Nat.zero_add]

/-- C8 witness: the amended theorem at the concrete clashing group. -/
theorem parse_invalid_group_skipped_witness :
    countOccur (parseSelectolax ujId emptyDom clashGroupSelectors none).2
      "missing_group_selector:g" = 1 ∧
    dictGet? (parseSelectolax ujId emptyDom clashGroupSelectors none).1 "g"
      = some (.list []) := by
  have h := parse_invalid_group_skipped ujId emptyDom none clashGroupSelectors
    "g" [clashGroupSelectors.get ⟨0, by decide⟩, clashGroupSelectors.get ⟨1, by decide⟩]
    (by decide) (by decide)
  exact ⟨h.1.trans (by decide), h.2⟩

/-! ### C9 infrastructure: `normalize_data` idempotence -/

theorem normalizeValue_idem (v w : PVal) (t : String)
    (h : normalizeValue v t = .ok w) : normalizeValue w t = .ok w := by
  by_cases hs : t = "string"
  · subst hs
    cases v <;>
      (rw [normalizeValue.eq_def, if_pos rfl] at h
       dsimp only at h
       injection h with h
       subst h
       rfl)
  · cases v with
    | null =>
      rw [normalizeValue.eq_def, if_neg hs] at h
      dsimp only at h
      by_cases hi : t = "int"
      · rw [if_pos hi] at h; exact absurd h (by simp)
      · rw [if_neg hi] at h
        by_cases hf : t = "float"
        · rw [if_pos hf] at h; exact absurd h (by simp)
        · rw [if_neg hf] at h
          by_cases hb : t = "bool"
          · rw [if_pos hb] at h; exact absurd h (by simp)
          · rw [if_neg hb] at h
            injection h with h
            subst h
            rw [normalizeValue.eq_def, if_neg hs]
            dsimp only
            rw [if_neg hi, if_neg hf, if_neg hb]
    | boolean b =>
      rw [normalizeValue.eq_def, if_neg hs] at h
      dsimp only at h
      by_cases hi : t = "int"
      · rw [if_pos hi] at h; exact absurd h (by simp)
      · rw [if_neg hi] at h
        by_cases hf : t = "float"
        · rw [if_pos hf] at h; exact absurd h (by simp)
        · rw [if_neg hf] at h
          by_cases hb : t = "bool"
          · rw [if_pos hb] at h
            injection h with h
            subst h
            subst hb
            rfl
          · rw [if_neg hb] at h
            injection h with h
            subst h
            rw [normalizeValue.eq_def, if_neg hs]
            dsimp only
            rw [if_neg hi, if_neg hf, if_neg hb]
    | int i =>
      rw [normalizeValue.eq_def, if_neg hs] at h
      dsimp only at h
      by_cases hi : t = "int"
      · rw [if_pos hi] at h
        injection h with h
        subst h
        subst hi
        rfl
      · rw [if_neg hi] at h
        by_cases hf : t = "float"
        · rw [if_pos hf] at h
          injection h with h
          subst h
          subst hf
          rfl
        · rw [if_neg hf] at h
          by_cases hb : t = "bool"
          · rw [if_pos hb] at h
            injection h with h
            subst h
            subst hb
            rfl
          · rw [if_neg hb] at h
            injection h with h
            subst h
            rw [normalizeValue.eq_def, if_neg hs]
            dsimp only
            rw [if_neg hi, if_neg hf, if_neg hb]
    | float q =>
      rw [normalizeValue.eq_def, if_neg hs] at h
      dsimp only at h
      by_cases hi : t = "int"
      · rw [if_pos hi] at h
        injection h with h
        subst h
        subst hi
        rfl
      · rw [if_neg hi] at h
        by_cases hf : t = "float"
        · rw [if_pos hf] at h
          injection h with h
          subst h
          subst hf
          rfl
        · rw [if_neg hf] at h
          by_cases hb : t = "bool"
          · rw [if_pos hb] at h
            injection h with h
            subst h
            subst hb
            rfl
          · rw [if_neg hb] at h
            injection h with h
            subst h
            rw [normalizeValue.eq_def, if_neg hs]
            dsimp only
            rw [if_neg hi, if_neg hf, if_neg hb]
    | list xs =>
      rw [normalizeValue.eq_def, if_neg hs] at h
      dsimp only at h
      by_cases hi : t = "int"
      · rw [if_pos hi] at h; exact absurd h (by simp)
      · rw [if_neg hi] at h
        by_cases hf : t = "float"
        · rw [if_pos hf] at h; exact absurd h (by simp)
        · rw [if_neg hf] at h
          by_cases hb : t = "bool"
          · rw [if_pos hb] at h; exact absurd h (by simp)
          · rw [if_neg hb] at h
            injection h with h
            subst h
            rw [normalizeValue.eq_def, if_neg hs]
            dsimp only
            rw [if_neg hi, if_neg hf, if_neg hb]
    | dict fields =>
      rw [normalizeValue.eq_def, if_neg hs] at h
      dsimp only at h
      by_cases hi : t = "int"
      · rw [if_pos hi] at h; exact absurd h (by simp)
      · rw [if_neg hi] at h
        by_cases hf : t = "float"
        · rw [if_pos hf] at h; exact absurd h (by simp)
        · rw [if_neg hf] at h
          by_cases hb : t = "bool"
          · rw [if_pos hb] at h; exact absurd h (by simp)
          · rw [if_neg hb] at h
            injection h with h
            subst h
            rw [normalizeValue.eq_def, if_neg hs]
            dsimp only
            rw [if_neg hi, if_neg hf, if_neg hb]
    | str s =>
      rw [normalizeValue.eq_def, if_neg hs] at h
      dsimp only at h
      cases hc : coerceValue s t with
      | error u => rw [hc] at h; dsimp only at h; exact absurd h (by simp)
      | ok w' =>
        rw [hc] at h
        dsimp only at h
        injection h with h
        subst h
        rw [coerceValue.eq_def, if_neg hs] at hc
        by_cases hi : t = "int"
        · rw [if_pos hi] at hc
          cases hp : pyIntParse (stripCommas s) with
          | none => rw [hp] at hc; exact absurd hc (by simp)
          | some i =>
            rw [hp] at hc
            dsimp only at hc
            injection hc with hc
            subst hc
            subst hi
            rfl
        · rw [if_neg hi] at hc
          by_cases hf : t = "float"
          · rw [if_pos hf] at hc
            cases hp : pyFloatParse (stripCommas s) with
            | none => rw [hp] at hc; exact absurd hc (by simp)
            | some q =>
              rw [hp] at hc
              dsimp only at hc
              injection hc with hc
              subst hc
              subst hf
              rfl
          · rw [if_neg hf] at hc
            by_cases hb : t = "bool"
            · rw [if_pos hb] at hc
              dsimp only at hc
              injection hc with hc
              subst hc
              subst hb
              rfl
            · rw [if_neg hb] at hc
              injection hc with hc
              subst hc
              rw [normalizeValue.eq_def, if_neg hs]
              dsimp only
              rw [coerceValue.eq_def, if_neg hs, if_neg hi, if_neg hf, if_neg hb]

theorem normalizeValue_shape (v w : PVal) (t : String)
    (h : normalizeValue v t = .ok w) :
    w = v ∨ (∃ s, w = PVal.str s) ∨ (∃ i, w = PVal.int i) ∨
      (∃ q, w = PVal.float q) ∨ (∃ b, w = PVal.boolean b) := by
  by_cases hs : t = "string"
  · subst hs
    cases v <;>
      (rw [normalizeValue.eq_def, if_pos rfl] at h
       dsimp only at h
       injection h with h
       subst h
       first
       | exact .inl rfl
       | exact .inr (.inl ⟨_, rfl⟩))
  · cases v with
    | null =>
      rw [normalizeValue.eq_def, if_neg hs] at h
      dsimp only at h
      by_cases hi : t = "int"
      · rw [if_pos hi] at h; exact absurd h (by simp)
      · rw [if_neg hi] at h
        by_cases hf : t = "float"
        · rw [if_pos hf] at h; exact absurd h (by simp)
        · rw [if_neg hf] at h
          by_cases hb : t = "bool"
          · rw [if_pos hb] at h; exact absurd h (by simp)
          · rw [if_neg hb] at h
            injection h with h
            subst h
            exact .inl rfl
    | boolean b =>
      rw [normalizeValue.eq_def, if_neg hs] at h
      dsimp only at h
      by_cases hi : t = "int"
      · rw [if_pos hi] at h; exact absurd h (by simp)
      · rw [if_neg hi] at h
        by_cases hf : t = "float"
        · rw [if_pos hf] at h; exact absurd h (by simp)
        · rw [if_neg hf] at h
          by_cases hb : t = "bool"
          · rw [if_pos hb] at h
            injection h with h
            subst h
            exact .inl rfl
          · rw [if_neg hb] at h
            injection h with h
            subst h
            exact .inl rfl
    | int i =>
      rw [normalizeValue.eq_def, if_neg hs] at h
      dsimp only at h
      by_cases hi : t = "int"
      · rw [if_pos hi] at h
        injection h with h
        subst h
        exact .inl rfl
      · rw [if_neg hi] at h
        by_cases hf : t = "float"
        · rw [if_pos hf] at h
          injection h with h
          subst h
          exact .inr (.inr (.inr (.inl ⟨_, rfl⟩)))
        · rw [if_neg hf] at h
          by_cases hb : t = "bool"
          · rw [if_pos hb] at h
            injection h with h
            subst h
            exact .inr (.inr (.inr (.inr ⟨_, rfl⟩)))
          · rw [if_neg hb] at h
            injection h with h
            subst h
            exact .inl rfl
    | float q =>
      rw [normalizeValue.eq_def, if_neg hs] at h
      dsimp only at h
      by_cases hi : t = "int"
      · rw [if_pos hi] at h
        injection h with h
        subst h
        exact .inr (.inr (.inl ⟨_, rfl⟩))
      · rw [if_neg hi] at h
        by_cases hf : t = "float"
        · rw [if_pos hf] at h
          injection h with h
          subst h
          exact .inl rfl
        · rw [if_neg hf] at h
          by_cases hb : t = "bool"
          · rw [if_pos hb] at h
            injection h with h
            subst h
            exact .inr (.inr (.inr (.inr ⟨_, rfl⟩)))
          · rw [if_neg hb] at h
            injection h with h
            subst h
            exact .inl rfl
    | list xs =>
      rw [normalizeValue.eq_def, if_neg hs] at h
      dsimp only at h
      by_cases hi : t = "int"
      · rw [if_pos hi] at h; exact absurd h (by simp)
      · rw [if_neg hi] at h
        by_cases hf : t = "float"
        · rw [if_pos hf] at h; exact absurd h (by simp)
        · rw [if_neg hf] at h
          by_cases hb : t = "bool"
          · rw [if_pos hb] at h; exact absurd h (by simp)
          · rw [if_neg hb] at h
            injection h with h
            subst h
            exact .inl rfl
    | dict fields =>
      rw [normalizeValue.eq_def, if_neg hs] at h
      dsimp only at h
      by_cases hi : t = "int"
      · rw [if_pos hi] at h; exact absurd h (by simp)
      · rw [if_neg hi] at h
        by_cases hf : t = "float"
        · rw [if_pos hf] at h; exact absurd h (by simp)
        · rw [if_neg hf] at h
          by_cases hb : t = "bool"
          · rw [if_pos hb] at h; exact absurd h (by simp)
          · rw [if_neg hb] at h
            injection h with h
            subst h
            exact .inl rfl
    | str s =>
      rw [normalizeValue.eq_def, if_neg hs] at h
      dsimp only at h
      cases hc : coerceValue s t with
      | error u => rw [hc] at h; dsimp only at h; exact absurd h (by simp)
      | ok w' =>
        rw [hc] at h
        dsimp only at h
        injection h with h
        subst h
        rw [coerceValue.eq_def, if_neg hs] at hc
        by_cases hi : t = "int"
        · rw [if_pos hi] at hc
          cases hp : pyIntParse (stripCommas s) with
          | none => rw [hp] at hc; exact absurd hc (by simp)
          | some i =>
            rw [hp] at hc
            dsimp only at hc
            injection hc with hc
            subst hc
            exact .inr (.inr (.inl ⟨_, rfl⟩))
        · rw [if_neg hi] at hc
          by_cases hf : t = "float"
          · rw [if_pos hf] at hc
            cases hp : pyFloatParse (stripCommas s) with
            | none => rw [hp] at hc; exact absurd hc (by simp)
            | some q =>
              rw [hp] at hc
              dsimp only at hc
              injection hc with hc
              subst hc
              exact .inr (.inr (.inr (.inl ⟨_, rfl⟩)))
          · rw [if_neg hf] at hc
            by_cases hb : t = "bool"
            · rw [if_pos hb] at hc
              dsimp only at hc
              injection hc with hc
              subst hc
              exact .inr (.inr (.inr (.inr ⟨_, rfl⟩)))
            · rw [if_neg hb] at hc
              injection hc with hc
              subst hc
              exact .inl rfl

theorem normalizeValue_ne_null (v w : PVal) (t : String) (hv : v ≠ .null)
    (h : normalizeValue v t = .ok w) : w ≠ .null := by
  rcases normalizeValue_shape v w t h with rfl | ⟨s, rfl⟩ | ⟨i, rfl⟩ | ⟨q, rfl⟩ | ⟨b, rfl⟩
  · exact hv
  all_goals simp

theorem prefix_append_singleton_absurd {errs e : List String} {x : String}
    (hx : e = errs ++ [x]) (h : e <+: errs) : False := by
  subst hx
  have hlen := h.length_le
  rw [List.length_append] at hlen
  simp only [List.length_singleton] at hlen
  omega

theorem pyGetNonNull_some (d : List (String × PVal)) (k : String) (v : PVal)
    (h : pyGetNonNull d k = some v) : dictGet? d k = some v ∧ v ≠ .null := by
  rw [pyGetNonNull] at h
  cases hg : dictGet? d k with
  | none => rw [hg] at h; exact absurd h (by simp)
  | some u =>
    rw [hg] at h
    cases u with
    | null => dsimp only at h; exact absurd h (by simp)
    | str s => dsimp only at h; injection h with h; subst h; exact ⟨rfl, by simp⟩
    | boolean b => dsimp only at h; injection h with h; subst h; exact ⟨rfl, by simp⟩
    | int i => dsimp only at h; injection h with h; subst h; exact ⟨rfl, by simp⟩
    | float q => dsimp only at h; injection h with h; subst h; exact ⟨rfl, by simp⟩
    | list xs => dsimp only at h; injection h with h; subst h; exact ⟨rfl, by simp⟩
    | dict fs => dsimp only at h; injection h with h; subst h; exact ⟨rfl, by simp⟩

theorem pyGetNonNull_of_dictGet (d : List (String × PVal)) (k : String) (v : PVal)
    (hg : dictGet? d k = some v) (hv : v ≠ .null) : pyGetNonNull d k = some v := by
  rw [pyGetNonNull, hg]
  cases v with
  | null => exact absurd rfl hv
  | str s => rfl
  | boolean b => rfl
  | int i => rfl
  | float q => rfl
  | list xs => rfl
  | dict fs => rfl

theorem pyGetNonNull_of_none (d : List (String × PVal)) (k : String)
    (hg : dictGet? d k = none) : pyGetNonNull d k = none := by
  rw [pyGetNonNull, hg]

theorem normFlat_errs_mono (data : List (String × PVal)) :
    ∀ (specs : List SelectorSpec) (acc : List (String × PVal)) (errs : List String)
      (d : List (String × PVal)) (e : List String),
      normFlat data specs acc errs = .ok (d, e) → errs <+: e := by
  intro specs
  induction specs with
  | nil =>
    intro acc errs d e h
    rw [normFlat.eq_def] at h
    dsimp only at h
    injection h with h
    rw [Prod.mk.injEq] at h
    rw [h.2]
  | cons spec rest ih =>
    intro acc errs d e h
    rw [normFlat.eq_def] at h
    dsimp only at h
    cases hpg : pyGetNonNull data spec.field with
    | none =>
      rw [hpg] at h
      dsimp only at h
      cases hr : spec.required with
      | true =>
        rw [hr, if_pos rfl] at h
        exact (List.prefix_append errs _).trans (ih _ _ _ _ h)
      | false =>
        rw [hr, if_neg (by simp)] at h
        exact ih _ _ _ _ h
    | some v =>
      rw [hpg] at h
      dsimp only at h
      cases hnv : normalizeValue v spec.dataType with
      | ok w =>
        rw [hnv] at h
        dsimp only at h
        exact ih _ _ _ _ h
      | error er =>
        rw [hnv] at h
        cases er with
        | valueError =>
          dsimp only at h
          exact (List.prefix_append errs _).trans (ih _ _ _ _ h)
        | typeCrash =>
          dsimp only at h
          exact absurd h (by simp)

theorem normFlat_preserve (data : List (String × PVal)) :
    ∀ (specs : List SelectorSpec) (acc : List (String × PVal)) (errs : List String)
      (d : List (String × PVal)) (e : List String) (f : String),
      normFlat data specs acc errs = .ok (d, e) →
      (∀ spec ∈ specs, spec.field ≠ f) →
      dictGet? d f = dictGet? acc f := by
  intro specs
  induction specs with
  | nil =>
    intro acc errs d e f h _
    rw [normFlat.eq_def] at h
    dsimp only at h
    injection h with h
    rw [Prod.mk.injEq] at h
    rw [h.1]
  | cons spec rest ih =>
    intro acc errs d e f h hne
    have hspec : spec.field ≠ f := hne spec (List.mem_cons_self spec rest)
    have hrest : ∀ s ∈ rest, s.field ≠ f := fun s hs => hne s (List.mem_cons_of_mem _ hs)
    rw [normFlat.eq_def] at h
    dsimp only at h
    cases hpg : pyGetNonNull data spec.field with
    | none =>
      rw [hpg] at h
      dsimp only at h
      cases hr : spec.required with
      | true => rw [hr, if_pos rfl] at h; exact ih _ _ _ _ _ h hrest
      | false => rw [hr, if_neg (by simp)] at h; exact ih _ _ _ _ _ h hrest
    | some v =>
      rw [hpg] at h
      dsimp only at h
      cases hnv : normalizeValue v spec.dataType with
      | ok w =>
        rw [hnv] at h
        dsimp only at h
        have hx := ih _ _ _ _ _ h hrest
        rw [hx, dictGet?_dictSet, if_neg (fun hy => hspec hy.symm)]
      | error er =>
        rw [hnv] at h
        cases er with
        | valueError => dsimp only at h; exact ih _ _ _ _ _ h hrest
        | typeCrash => dsimp only at h; exact absurd h (by simp)

theorem normFlat_char (data : List (String × PVal)) :
    ∀ (specs : List SelectorSpec) (acc : List (String × PVal)) (errs : List String)
      (d : List (String × PVal)),
      ((specs.map (fun s => s.field)).Nodup) →
      normFlat data specs acc errs = .ok (d, errs) →
      ∀ spec ∈ specs,
        (pyGetNonNull data spec.field = none ∧
          dictGet? d spec.field = dictGet? acc spec.field) ∨
        (∃ v w, pyGetNonNull data spec.field = some v ∧
          normalizeValue v spec.dataType = .ok w ∧ dictGet? d spec.field = some w) := by
  intro specs
  induction specs with
  | nil => intro acc errs d _ _ spec hmem; exact absurd hmem (List.not_mem_nil _)
  | cons spec0 rest ih =>
    intro acc errs d hnd h spec hmem
    rw [List.map_cons, List.nodup_cons] at hnd
    rw [normFlat.eq_def] at h
    dsimp only at h
    rcases List.mem_cons.mp hmem with rfl | hmem'
    · cases hpg : pyGetNonNull data spec.field with
      | none =>
        rw [hpg] at h
        dsimp only at h
        cases hr : spec.required with
        | true =>
          rw [hr, if_pos rfl] at h
          exact (prefix_append_singleton_absurd rfl (normFlat_errs_mono data _ _ _ _ _ h)).elim
        | false =>
          rw [hr, if_neg (by simp)] at h
          left
          exact ⟨rfl, normFlat_preserve data _ _ _ _ _ _ h
            (fun s hs hf => hnd.1 (hf ▸ List.mem_map_of_mem _ hs))⟩
      | some v =>
        rw [hpg] at h
        dsimp only at h
        cases hnv : normalizeValue v spec.dataType with
        | ok w =>
          rw [hnv] at h
          dsimp only at h
          right
          refine ⟨v, w, rfl, hnv, ?_⟩
          have hpres := normFlat_preserve data _ _ _ _ _ spec.field h
            (fun s hs hf => hnd.1 (hf ▸ List.mem_map_of_mem _ hs))
          rw [hpres, dictGet?_dictSet, if_pos rfl]
        | error er =>
          rw [hnv] at h
          cases er with
          | valueError =>
            dsimp only at h
            exact (prefix_append_singleton_absurd rfl (normFlat_errs_mono data _ _ _ _ _ h)).elim
          | typeCrash => dsimp only at h; exact absurd h (by simp)
    · cases hpg : pyGetNonNull data spec0.field with
      | none =>
        rw [hpg] at h
        dsimp only at h
        cases hr : spec0.required with
        | true =>
          rw [hr, if_pos rfl] at h
          exact (prefix_append_singleton_absurd rfl (normFlat_errs_mono data _ _ _ _ _ h)).elim
        | false =>
          rw [hr, if_neg (by simp)] at h
          exact ih _ _ _ hnd.2 h spec hmem'
      | some v =>
        rw [hpg] at h
        dsimp only at h
        cases hnv : normalizeValue v spec0.dataType with
        | ok w =>
          rw [hnv] at h
          dsimp only at h
          have hres := ih _ _ _ hnd.2 h spec hmem'
          have hne : ¬(spec.field = spec0.field) :=
            fun hf => hnd.1 (hf ▸ List.mem_map_of_mem _ hmem')
          rcases hres with ⟨hn, hd⟩ | hr2
          · left
            refine ⟨hn, ?_⟩
            rw [hd, dictGet?_dictSet, if_neg hne]
          · right
            exact hr2
        | error er =>
          rw [hnv] at h
          cases er with
          | valueError =>
            dsimp only at h
            exact (prefix_append_singleton_absurd rfl (normFlat_errs_mono data _ _ _ _ _ h)).elim
          | typeCrash => dsimp only at h; exact absurd h (by simp)

theorem normFlat_twin (data y : List (String × PVal)) :
    ∀ (specs : List SelectorSpec) (acc : List (String × PVal)) (errs : List String)
      (d : List (String × PVal)),
      (∀ spec ∈ specs,
        (pyGetNonNull data spec.field = none ∧ pyGetNonNull y spec.field = none) ∨
        (∃ v w, pyGetNonNull data spec.field = some v ∧
          pyGetNonNull y spec.field = some w ∧
          normalizeValue v spec.dataType = .ok w)) →
      normFlat data specs acc errs = .ok (d, errs) →
      ∀ errs2, normFlat y specs acc errs2 = .ok (d, errs2) := by
  intro specs
  induction specs with
  | nil =>
    intro acc errs d _ h errs2
    rw [normFlat.eq_def] at h
    dsimp only at h
    injection h with h
    rw [Prod.mk.injEq] at h
    rw [normFlat.eq_def]
    dsimp only
    rw [h.1]
  | cons spec rest ih =>
    intro acc errs d hcorr h errs2
    rw [normFlat.eq_def] at h
    dsimp only at h
    rcases hcorr spec (List.mem_cons_self spec rest) with ⟨hn, hny⟩ | ⟨v, w, hv, hw, hok⟩
    · rw [hn] at h
      dsimp only at h
      cases hr : spec.required with
      | true =>
        rw [hr, if_pos rfl] at h
        exact (prefix_append_singleton_absurd rfl (normFlat_errs_mono data _ _ _ _ _ h)).elim
      | false =>
        rw [hr, if_neg (by simp)] at h
        rw [normFlat.eq_def]
        dsimp only
        rw [hny]
        dsimp only
        rw [hr, if_neg (by simp)]
        exact ih _ _ _ (fun s hs => hcorr s (List.mem_cons_of_mem _ hs)) h errs2
    · rw [hv] at h
      dsimp only at h
      rw [hok] at h
      dsimp only at h
      rw [normFlat.eq_def]
      dsimp only
      rw [hw]
      dsimp only
      rw [normalizeValue_idem v w spec.dataType hok]
      dsimp only
      exact ih _ _ _ (fun s hs => hcorr s (List.mem_cons_of_mem _ hs)) h errs2

theorem normItemFields_errs_mono (g : String) (item : List (String × PVal)) :
    ∀ (specs : List SelectorSpec) (idx : Nat) (acc : List (String × PVal))
      (errs : List String) (d : List (String × PVal)) (e : List String),
      normItemFields g idx item specs acc errs = .ok (d, e) → errs <+: e := by
  intro specs
  induction specs with
  | nil =>
    intro idx acc errs d e h
    rw [normItemFields.eq_def] at h
    dsimp only at h
    injection h with h
    rw [Prod.mk.injEq] at h
    rw [h.2]
  | cons spec rest ih =>
    intro idx acc errs d e h
    rw [normItemFields.eq_def] at h
    dsimp only at h
    cases hpg : pyGetNonNull item spec.field with
    | none =>
      rw [hpg] at h
      dsimp only at h
      cases hr : spec.required with
      | true =>
        rw [hr, if_pos rfl] at h
        exact (List.prefix_append errs _).trans (ih _ _ _ _ _ h)
      | false =>
        rw [hr, if_neg (by simp)] at h
        exact ih _ _ _ _ _ h
    | some v =>
      rw [hpg] at h
      dsimp only at h
      cases hnv : normalizeValue v spec.dataType with
      | ok w =>
        rw [hnv] at h
        dsimp only at h
        exact ih _ _ _ _ _ h
      | error er =>
        rw [hnv] at h
        cases er with
        | valueError =>
          dsimp only at h
          exact (List.prefix_append errs _).trans (ih _ _ _ _ _ h)
        | typeCrash =>
          dsimp only at h
          exact absurd h (by simp)

theorem normItemFields_preserve (g : String) (item : List (String × PVal)) :
    ∀ (specs : List SelectorSpec) (idx : Nat) (acc : List (String × PVal))
      (errs : List String) (d : List (String × PVal)) (e : List String) (f : String),
      normItemFields g idx item specs acc errs = .ok (d, e) →
      (∀ spec ∈ specs, spec.field ≠ f) →
      dictGet? d f = dictGet? acc f := by
  intro specs
  induction specs with
  | nil =>
    intro idx acc errs d e f h _
    rw [normItemFields.eq_def] at h
    dsimp only at h
    injection h with h
    rw [Prod.mk.injEq] at h
    rw [h.1]
  | cons spec rest ih =>
    intro idx acc errs d e f h hne
    have hspec : spec.field ≠ f := hne spec (List.mem_cons_self spec rest)
    have hrest : ∀ s ∈ rest, s.field ≠ f := fun s hs => hne s (List.mem_cons_of_mem _ hs)
    rw [normItemFields.eq_def] at h
    dsimp only at h
    cases hpg : pyGetNonNull item spec.field with
    | none =>
      rw [hpg] at h
      dsimp only at h
      cases hr : spec.required with
      | true => rw [hr, if_pos rfl] at h; exact ih _ _ _ _ _ _ h hrest
      | false => rw [hr, if_neg (by simp)] at h; exact ih _ _ _ _ _ _ h hrest
    | some v =>
      rw [hpg] at h
      dsimp only at h
      cases hnv : normalizeValue v spec.dataType with
      | ok w =>
        rw [hnv] at h
        dsimp only at h
        have hx := ih _ _ _ _ _ _ h hrest
        rw [hx, dictGet?_dictSet, if_neg (fun hy => hspec hy.symm)]
      | error er =>
        rw [hnv] at h
        cases er with
        | valueError => dsimp only at h; exact ih _ _ _ _ _ _ h hrest
        | typeCrash => dsimp only at h; exact absurd h (by simp)

theorem normItemFields_char (g : String) (item : List (String × PVal)) :
    ∀ (specs : List SelectorSpec) (idx : Nat) (acc : List (String × PVal))
      (errs : List String) (d : List (String × PVal)),
      ((specs.map (fun s => s.field)).Nodup) →
      normItemFields g idx item specs acc errs = .ok (d, errs) →
      ∀ spec ∈ specs,
        (pyGetNonNull item spec.field = none ∧
          dictGet? d spec.field = dictGet? acc spec.field) ∨
        (∃ v w, pyGetNonNull item spec.field = some v ∧
          normalizeValue v spec.dataType = .ok w ∧ dictGet? d spec.field = some w) := by
  intro specs
  induction specs with
  | nil => intro idx acc errs d _ _ spec hmem; exact absurd hmem (List.not_mem_nil _)
  | cons spec0 rest ih =>
    intro idx acc errs d hnd h spec hmem
    rw [List.map_cons, List.nodup_cons] at hnd
    rw [normItemFields.eq_def] at h
    dsimp only at h
    rcases List.mem_cons.mp hmem with rfl | hmem'
    · cases hpg : pyGetNonNull item spec.field with
      | none =>
        rw [hpg] at h
        dsimp only at h
        cases hr : spec.required with
        | true =>
          rw [hr, if_pos rfl] at h
          exact (prefix_append_singleton_absurd rfl
            (normItemFields_errs_mono g item _ _ _ _ _ _ h)).elim
        | false =>
          rw [hr, if_neg (by simp)] at h
          left
          exact ⟨rfl, normItemFields_preserve g item _ _ _ _ _ _ _ h
            (fun s hs hf => hnd.1 (hf ▸ List.mem_map_of_mem _ hs))⟩
      | some v =>
        rw [hpg] at h
        dsimp only at h
        cases hnv : normalizeValue v spec.dataType with
        | ok w =>
          rw [hnv] at h
          dsimp only at h
          right
          refine ⟨v, w, rfl, hnv, ?_⟩
          have hpres := normItemFields_preserve g item _ _ _ _ _ _ spec.field h
            (fun s hs hf => hnd.1 (hf ▸ List.mem_map_of_mem _ hs))
          rw [hpres, dictGet?_dictSet, if_pos rfl]
        | error er =>
          rw [hnv] at h
          cases er with
          | valueError =>
            dsimp only at h
            exact (prefix_append_singleton_absurd rfl
              (normItemFields_errs_mono g item _ _ _ _ _ _ h)).elim
          | typeCrash => dsimp only at h; exact absurd h (by simp)
    · cases hpg : pyGetNonNull item spec0.field with
      | none =>
        rw [hpg] at h
        dsimp only at h
        cases hr : spec0.required with
        | true =>
          rw [hr, if_pos rfl] at h
          exact (prefix_append_singleton_absurd rfl
            (normItemFields_errs_mono g item _ _ _ _ _ _ h)).elim
        | false =>
          rw [hr, if_neg (by simp)] at h
          exact ih _ _ _ _ hnd.2 h spec hmem'
      | some v =>
        rw [hpg] at h
        dsimp only at h
        cases hnv : normalizeValue v spec0.dataType with
        | ok w =>
          rw [hnv] at h
          dsimp only at h
          have hres := ih _ _ _ _ hnd.2 h spec hmem'
          have hne : ¬(spec.field = spec0.field) :=
            fun hf => hnd.1 (hf ▸ List.mem_map_of_mem _ hmem')
          rcases hres with ⟨hn, hd⟩ | hr2
          · left
            refine ⟨hn, ?_⟩
            rw [hd, dictGet?_dictSet, if_neg hne]
          · right
            exact hr2
        | error er =>
          rw [hnv] at h
          cases er with
          | valueError =>
            dsimp only at h
            exact (prefix_append_singleton_absurd rfl
              (normItemFields_errs_mono g item _ _ _ _ _ _ h)).elim
          | typeCrash => dsimp only at h; exact absurd h (by simp)

theorem normItemFields_twin (g : String) (src dst : List (String × PVal)) :
    ∀ (specs : List SelectorSpec) (idx : Nat) (acc : List (String × PVal))
      (errs : List String) (d : List (String × PVal)),
      (∀ spec ∈ specs,
        (pyGetNonNull src spec.field = none ∧ pyGetNonNull dst spec.field = none) ∨
        (∃ v w, pyGetNonNull src spec.field = some v ∧
          pyGetNonNull dst spec.field = some w ∧
          normalizeValue v spec.dataType = .ok w)) →
      normItemFields g idx src specs acc errs = .ok (d, errs) →
      ∀ (idx2 : Nat) (errs2 : List String),
        normItemFields g idx2 dst specs acc errs2 = .ok (d, errs2) := by
  intro specs
  induction specs with
  | nil =>
    intro idx acc errs d _ h idx2 errs2
    rw [normItemFields.eq_def] at h
    dsimp only at h
    injection h with h
    rw [Prod.mk.injEq] at h
    rw [normItemFields.eq_def]
    dsimp only
    rw [h.1]
  | cons spec rest ih =>
    intro idx acc errs d hcorr h idx2 errs2
    rw [normItemFields.eq_def] at h
    dsimp only at h
    rcases hcorr spec (List.mem_cons_self spec rest) with ⟨hn, hny⟩ | ⟨v, w, hv, hw, hok⟩
    · rw [hn] at h
      dsimp only at h
      cases hr : spec.required with
      | true =>
        rw [hr, if_pos rfl] at h
        exact (prefix_append_singleton_absurd rfl
          (normItemFields_errs_mono g src _ _ _ _ _ _ h)).elim
      | false =>
        rw [hr, if_neg (by simp)] at h
        rw [normItemFields.eq_def]
        dsimp only
        rw [hny]
        dsimp only
        rw [hr, if_neg (by simp)]
        exact ih _ _ _ _ (fun s hs => hcorr s (List.mem_cons_of_mem _ hs)) h idx2 errs2
    · rw [hv] at h
      dsimp only at h
      rw [hok] at h
      dsimp only at h
      rw [normItemFields.eq_def]
      dsimp only
      rw [hw]
      dsimp only
      rw [normalizeValue_idem v w spec.dataType hok]
      dsimp only
      exact ih _ _ _ _ (fun s hs => hcorr s (List.mem_cons_of_mem _ hs)) h idx2 errs2

theorem normItemFields_idem (g : String) (fields itemData : List (String × PVal))
    (specs : List SelectorSpec)
    (hnd : (specs.map (fun s => s.field)).Nodup) (idx : Nat)
    (h : normItemFields g idx fields specs [] [] = .ok (itemData, [])) :
    ∀ idx2, normItemFields g idx2 itemData specs [] [] = .ok (itemData, []) := by
  intro idx2
  refine normItemFields_twin g fields itemData specs idx [] [] itemData ?_ h idx2 []
  intro spec hmem
  rcases normItemFields_char g fields specs idx [] [] itemData hnd h spec hmem with
    ⟨hn, hd⟩ | ⟨v, w, hv, hok, hdw⟩
  · left
    exact ⟨hn, pyGetNonNull_of_none _ _ hd⟩
  · right
    refine ⟨v, w, hv, ?_, hok⟩
    exact pyGetNonNull_of_dictGet _ _ _ hdw
      (normalizeValue_ne_null v w spec.dataType (pyGetNonNull_some _ _ _ hv).2 hok)

theorem normItems_errs_mono (g : String) (specs : List SelectorSpec) :
    ∀ (items : List PVal) (idx : Nat) (accItems : List PVal) (errs : List String)
      (res : List PVal) (e : List String),
      normItems g specs items idx accItems errs = .ok (res, e) → errs <+: e := by
  intro items
  induction items with
  | nil =>
    intro idx acc errs res e h
    rw [normItems.eq_def] at h
    dsimp only at h
    injection h with h
    rw [Prod.mk.injEq] at h
    rw [h.2]
  | cons item rest ih =>
    intro idx acc errs res e h
    rw [normItems.eq_def] at h
    dsimp only at h
    cases item with
    | dict fields =>
      dsimp only at h
      cases hni : normItemFields g idx fields specs [] [] with
      | ok p =>
        obtain ⟨itemData, itemErrs⟩ := p
        rw [hni] at h
        dsimp only at h
        exact (List.prefix_append errs itemErrs).trans (ih _ _ _ _ _ h)
      | error er =>
        rw [hni] at h
        dsimp only at h
        exact absurd h (by simp)
    | null => dsimp only at h; exact (List.prefix_append errs _).trans (ih _ _ _ _ _ h)
    | boolean b => dsimp only at h; exact (List.prefix_append errs _).trans (ih _ _ _ _ _ h)
    | int i => dsimp only at h; exact (List.prefix_append errs _).trans (ih _ _ _ _ _ h)
    | float q => dsimp only at h; exact (List.prefix_append errs _).trans (ih _ _ _ _ _ h)
    | str s => dsimp only at h; exact (List.prefix_append errs _).trans (ih _ _ _ _ _ h)
    | list xs => dsimp only at h; exact (List.prefix_append errs _).trans (ih _ _ _ _ _ h)

theorem normItems_run_of_fixed (g : String) (specs : List SelectorSpec) :
    ∀ (items : List PVal),
      (∀ item ∈ items, ∃ fields, item = .dict fields ∧
        ∀ idx2, normItemFields g idx2 fields specs [] [] = .ok (fields, [])) →
      ∀ (idx : Nat) (accItems : List PVal) (errs : List String),
        normItems g specs items idx accItems errs = .ok (accItems ++ items, errs) := by
  intro items
  induction items with
  | nil =>
    intro _ idx acc errs
    rw [normItems.eq_def]
    dsimp only
    rw [List.append_nil]
  | cons item rest ih =>
    intro hfix idx acc errs
    obtain ⟨fields, rfl, hif⟩ := hfix item (List.mem_cons_self item rest)
    rw [normItems.eq_def]
    dsimp only
    rw [hif idx]
    dsimp only
    rw [List.append_nil]
    have hrec := ih (fun it hit => hfix it (List.mem_cons_of_mem _ hit)) (idx + 1)
      (acc ++ [PVal.dict fields]) errs
    rw [hrec, List.append_assoc, List.singleton_append]

theorem normItems_fixed_of_run (g : String) (specs : List SelectorSpec)
    (hnd : (specs.map (fun s => s.field)).Nodup) :
    ∀ (items : List PVal) (idx : Nat) (accItems : List PVal) (errs : List String)
      (res : List PVal),
      normItems g specs items idx accItems errs = .ok (res, errs) →
      ∃ new, res = accItems ++ new ∧
        ∀ item ∈ new, ∃ fields, item = .dict fields ∧
          ∀ idx2, normItemFields g idx2 fields specs [] [] = .ok (fields, []) := by
  intro items
  induction items with
  | nil =>
    intro idx acc errs res h
    rw [normItems.eq_def] at h
    dsimp only at h
    injection h with h
    rw [Prod.mk.injEq] at h
    refine ⟨[], ?_, fun item hit => absurd hit (List.not_mem_nil _)⟩
    rw [List.append_nil]
    exact h.1.symm
  | cons item rest ih =>
    intro idx acc errs res h
    rw [normItems.eq_def] at h
    dsimp only at h
    cases item with
    | dict fields =>
      dsimp only at h
      cases hni : normItemFields g idx fields specs [] [] with
      | ok p =>
        obtain ⟨itemData, itemErrs⟩ := p
        rw [hni] at h
        dsimp only at h
        have hpre := normItems_errs_mono g specs _ _ _ _ _ _ h
        have hlen := hpre.length_le
        rw [List.length_append] at hlen
        have hemp : itemErrs = [] := List.eq_nil_of_length_eq_zero (by omega)
        subst hemp
        rw [List.append_nil] at h
        obtain ⟨new, hres, hfix⟩ := ih _ _ _ _ h
        refine ⟨PVal.dict itemData :: new, ?_, ?_⟩
        · rw [hres, List.append_assoc, List.singleton_append]
        · intro it hit
          rcases List.mem_cons.mp hit with rfl | hit'
          · exact ⟨itemData, rfl, normItemFields_idem g fields itemData specs hnd idx hni⟩
          · exact hfix it hit'
      | error er =>
        rw [hni] at h
        dsimp only at h
        exact absurd h (by simp)
    | null =>
      dsimp only at h
      exact (prefix_append_singleton_absurd rfl (normItems_errs_mono g specs _ _ _ _ _ _ h)).elim
    | boolean b =>
      dsimp only at h
      exact (prefix_append_singleton_absurd rfl (normItems_errs_mono g specs _ _ _ _ _ _ h)).elim
    | int i =>
      dsimp only at h
      exact (prefix_append_singleton_absurd rfl (normItems_errs_mono g specs _ _ _ _ _ _ h)).elim
    | float q =>
      dsimp only at h
      exact (prefix_append_singleton_absurd rfl (normItems_errs_mono g specs _ _ _ _ _ _ h)).elim
    | str s =>
      dsimp only at h
      exact (prefix_append_singleton_absurd rfl (normItems_errs_mono g specs _ _ _ _ _ _ h)).elim
    | list xs =>
      dsimp only at h
      exact (prefix_append_singleton_absurd rfl (normItems_errs_mono g specs _ _ _ _ _ _ h)).elim

theorem normGroups_errs_mono (data : List (String × PVal)) :
    ∀ (gps : List (String × List SelectorSpec)) (acc : List (String × PVal))
      (errs : List String) (d : List (String × PVal)) (e : List String),
      normGroups data gps acc errs = .ok (d, e) → errs <+: e := by
  intro gps
  induction gps with
  | nil =>
    intro acc errs d e h
    rw [normGroups.eq_def] at h
    dsimp only at h
    injection h with h
    rw [Prod.mk.injEq] at h
    rw [h.2]
  | cons p rest ih =>
    obtain ⟨g, specs⟩ := p
    intro acc errs d e h
    rw [normGroups.eq_def] at h
    dsimp only at h
    cases hpg : pyGetNonNull data g with
    | none =>
      rw [hpg] at h
      dsimp only at h
      cases ha : specs.any (fun spec => spec.required) with
      | true =>
        rw [ha, if_pos rfl] at h
        exact (List.prefix_append errs _).trans (ih _ _ _ _ h)
      | false =>
        rw [ha, if_neg (by simp)] at h
        exact ih _ _ _ _ h
    | some v =>
      rw [hpg] at h
      cases v with
      | list items =>
        dsimp only at h
        cases hni : normItems g specs items 0 [] [] with
        | ok q =>
          obtain ⟨normed, itemErrs⟩ := q
          rw [hni] at h
          dsimp only at h
          exact (List.prefix_append errs itemErrs).trans (ih _ _ _ _ h)
        | error er =>
          rw [hni] at h
          dsimp only at h
          exact absurd h (by simp)
      | null => dsimp only at h; exact (List.prefix_append errs _).trans (ih _ _ _ _ h)
      | boolean b => dsimp only at h; exact (List.prefix_append errs _).trans (ih _ _ _ _ h)
      | int i => dsimp only at h; exact (List.prefix_append errs _).trans (ih _ _ _ _ h)
      | float q => dsimp only at h; exact (List.prefix_append errs _).trans (ih _ _ _ _ h)
      | str s => dsimp only at h; exact (List.prefix_append errs _).trans (ih _ _ _ _ h)
      | dict fs => dsimp only at h; exact (List.prefix_append errs _).trans (ih _ _ _ _ h)

theorem normGroups_preserve (data : List (String × PVal)) :
    ∀ (gps : List (String × List SelectorSpec)) (acc : List (String × PVal))
      (errs : List String) (d : List (String × PVal)) (e : List String) (f : String),
      normGroups data gps acc errs = .ok (d, e) →
      (∀ p ∈ gps, p.1 ≠ f) →
      dictGet? d f = dictGet? acc f := by
  intro gps
  induction gps with
  | nil =>
    intro acc errs d e f h _
    rw [normGroups.eq_def] at h
    dsimp only at h
    injection h with h
    rw [Prod.mk.injEq] at h
    rw [h.1]
  | cons p rest ih =>
    obtain ⟨g, specs⟩ := p
    intro acc errs d e f h hne
    have hg : g ≠ f := hne (g, specs) (List.mem_cons_self _ rest)
    have hrest : ∀ q ∈ rest, q.1 ≠ f := fun q hq => hne q (List.mem_cons_of_mem _ hq)
    rw [normGroups.eq_def] at h
    dsimp only at h
    cases hpg : pyGetNonNull data g with
    | none =>
      rw [hpg] at h
      dsimp only at h
      cases ha : specs.any (fun spec => spec.required) with
      | true => rw [ha, if_pos rfl] at h; exact ih _ _ _ _ _ h hrest
      | false => rw [ha, if_neg (by simp)] at h; exact ih _ _ _ _ _ h hrest
    | some v =>
      rw [hpg] at h
      cases v with
      | list items =>
        dsimp only at h
        cases hni : normItems g specs items 0 [] [] with
        | ok q =>
          obtain ⟨normed, itemErrs⟩ := q
          rw [hni] at h
          dsimp only at h
          have hx := ih _ _ _ _ _ h hrest
          rw [hx, dictGet?_dictSet, if_neg (fun hy => hg hy.symm)]
        | error er =>
          rw [hni] at h
          dsimp only at h
          exact absurd h (by simp)
      | null => dsimp only at h; exact ih _ _ _ _ _ h hrest
      | boolean b => dsimp only at h; exact ih _ _ _ _ _ h hrest
      | int i => dsimp only at h; exact ih _ _ _ _ _ h hrest
      | float q => dsimp only at h; exact ih _ _ _ _ _ h hrest
      | str s => dsimp only at h; exact ih _ _ _ _ _ h hrest
      | dict fs => dsimp only at h; exact ih _ _ _ _ _ h hrest

theorem normGroups_char (data : List (String × PVal)) :
    ∀ (gps : List (String × List SelectorSpec)) (acc : List (String × PVal))
      (errs : List String) (d : List (String × PVal)),
      ((gps.map Prod.fst).Nodup) →
      normGroups data gps acc errs = .ok (d, errs) →
      ∀ p ∈ gps,
        (pyGetNonNull data p.1 = none ∧ dictGet? d p.1 = dictGet? acc p.1) ∨
        (∃ items normed, pyGetNonNull data p.1 = some (.list items) ∧
          normItems p.1 p.2 items 0 [] [] = .ok (normed, []) ∧
          dictGet? d p.1 = some (.list normed)) := by
  intro gps
  induction gps with
  | nil => intro acc errs d _ _ p hmem; exact absurd hmem (List.not_mem_nil _)
  | cons p0 rest ih =>
    obtain ⟨g, specs⟩ := p0
    intro acc errs d hnd h p hmem
    rw [List.map_cons, List.nodup_cons] at hnd
    rw [normGroups.eq_def] at h
    dsimp only at h
    rcases List.mem_cons.mp hmem with rfl | hmem'
    · cases hpg : pyGetNonNull data g with
      | none =>
        rw [hpg] at h
        dsimp only at h
        cases ha : specs.any (fun spec => spec.required) with
        | true =>
          rw [ha, if_pos rfl] at h
          exact (prefix_append_singleton_absurd rfl (normGroups_errs_mono data _ _ _ _ _ h)).elim
        | false =>
          rw [ha, if_neg (by simp)] at h
          left
          exact ⟨rfl, normGroups_preserve data _ _ _ _ _ _ h
            (fun q hq hf => hnd.1 (by subst hf; have hx := List.mem_map_of_mem Prod.fst hq; exact hx))⟩
      | some v =>
        rw [hpg] at h
        cases v with
        | list items =>
          dsimp only at h
          cases hni : normItems g specs items 0 [] [] with
          | ok q =>
            obtain ⟨normed, itemErrs⟩ := q
            rw [hni] at h
            dsimp only at h
            have hpre := normGroups_errs_mono data _ _ _ _ _ h
            have hlen := hpre.length_le
            rw [List.length_append] at hlen
            have hemp : itemErrs = [] := List.eq_nil_of_length_eq_zero (by omega)
            subst hemp
            rw [List.append_nil] at h
            right
            refine ⟨items, normed, rfl, hni, ?_⟩
            have hpres := normGroups_preserve data _ _ _ _ _ g h
              (fun q hq hf => hnd.1 (by subst hf; have hx := List.mem_map_of_mem Prod.fst hq; exact hx))
            rw [hpres, dictGet?_dictSet, if_pos rfl]
          | error er =>
            rw [hni] at h
            dsimp only at h
            exact absurd h (by simp)
        | null =>
          dsimp only at h
          exact (prefix_append_singleton_absurd rfl (normGroups_errs_mono data _ _ _ _ _ h)).elim
        | boolean b =>
          dsimp only at h
          exact (prefix_append_singleton_absurd rfl (normGroups_errs_mono data _ _ _ _ _ h)).elim
        | int i =>
          dsimp only at h
          exact (prefix_append_singleton_absurd rfl (normGroups_errs_mono data _ _ _ _ _ h)).elim
        | float q =>
          dsimp only at h
          exact (prefix_append_singleton_absurd rfl (normGroups_errs_mono data _ _ _ _ _ h)).elim
        | str s =>
          dsimp only at h
          exact (prefix_append_singleton_absurd rfl (normGroups_errs_mono data _ _ _ _ _ h)).elim
        | dict fs =>
          dsimp only at h
          exact (prefix_append_singleton_absurd rfl (normGroups_errs_mono data _ _ _ _ _ h)).elim
    · have hne : ¬(p.1 = g) := by
        intro hf
        apply hnd.1
        subst hf
        have hx := List.mem_map_of_mem Prod.fst hmem'
        exact hx
      cases hpg : pyGetNonNull data g with
      | none =>
        rw [hpg] at h
        dsimp only at h
        cases ha : specs.any (fun spec => spec.required) with
        | true =>
          rw [ha, if_pos rfl] at h
          exact (prefix_append_singleton_absurd rfl (normGroups_errs_mono data _ _ _ _ _ h)).elim
        | false =>
          rw [ha, if_neg (by simp)] at h
          exact ih _ _ _ hnd.2 h p hmem'
      | some v =>
        rw [hpg] at h
        cases v with
        | list items =>
          dsimp only at h
          cases hni : normItems g specs items 0 [] [] with
          | ok q =>
            obtain ⟨normed, itemErrs⟩ := q
            rw [hni] at h
            dsimp only at h
            have hpre := normGroups_errs_mono data _ _ _ _ _ h
            have hlen := hpre.length_le
            rw [List.length_append] at hlen
            have hemp : itemErrs = [] := List.eq_nil_of_length_eq_zero (by omega)
            subst hemp
            rw [List.append_nil] at h
            have hres := ih _ _ _ hnd.2 h p hmem'
            rcases hres with ⟨hn, hd⟩ | hr2
            · left
              refine ⟨hn, ?_⟩
              rw [hd, dictGet?_dictSet, if_neg hne]
            · right
              exact hr2
          | error er =>
            rw [hni] at h
            dsimp only at h
            exact absurd h (by simp)
        | null =>
          dsimp only at h
          exact (prefix_append_singleton_absurd rfl (normGroups_errs_mono data _ _ _ _ _ h)).elim
        | boolean b =>
          dsimp only at h
          exact (prefix_append_singleton_absurd rfl (normGroups_errs_mono data _ _ _ _ _ h)).elim
        | int i =>
          dsimp only at h
          exact (prefix_append_singleton_absurd rfl (normGroups_errs_mono data _ _ _ _ _ h)).elim
        | float q =>
          dsimp only at h
          exact (prefix_append_singleton_absurd rfl (normGroups_errs_mono data _ _ _ _ _ h)).elim
        | str s =>
          dsimp only at h
          exact (prefix_append_singleton_absurd rfl (normGroups_errs_mono data _ _ _ _ _ h)).elim
        | dict fs =>
          dsimp only at h
          exact (prefix_append_singleton_absurd rfl (normGroups_errs_mono data _ _ _ _ _ h)).elim

theorem normGroups_twin (data y : List (String × PVal)) :
    ∀ (gps : List (String × List SelectorSpec)) (acc : List (String × PVal))
      (errs : List String) (d : List (String × PVal)),
      (∀ p ∈ gps,
        (pyGetNonNull data p.1 = none ∧ pyGetNonNull y p.1 = none) ∨
        (∃ items normed, pyGetNonNull data p.1 = some (.list items) ∧
          pyGetNonNull y p.1 = some (.list normed) ∧
          normItems p.1 p.2 items 0 [] [] = .ok (normed, []) ∧
          normItems p.1 p.2 normed 0 [] [] = .ok (normed, []))) →
      normGroups data gps acc errs = .ok (d, errs) →
      ∀ errs2, normGroups y gps acc errs2 = .ok (d, errs2) := by
  intro gps
  induction gps with
  | nil =>
    intro acc errs d _ h errs2
    rw [normGroups.eq_def] at h
    dsimp only at h
    injection h with h
    rw [Prod.mk.injEq] at h
    rw [normGroups.eq_def]
    dsimp only
    rw [h.1]
  | cons p0 rest ih =>
    obtain ⟨g, specs⟩ := p0
    intro acc errs d hcorr h errs2
    rw [normGroups.eq_def] at h
    dsimp only at h
    rcases hcorr (g, specs) (List.mem_cons_self _ rest) with
      ⟨hn, hny⟩ | ⟨items, normed, hv, hw, hit1, hit2⟩
    · rw [hn] at h
      dsimp only at h
      cases ha : specs.any (fun spec => spec.required) with
      | true =>
        rw [ha, if_pos rfl] at h
        exact (prefix_append_singleton_absurd rfl (normGroups_errs_mono data _ _ _ _ _ h)).elim
      | false =>
        rw [ha, if_neg (by simp)] at h
        rw [normGroups.eq_def]
        dsimp only
        rw [hny]
        dsimp only
        rw [ha, if_neg (by simp)]
        exact ih _ _ _ (fun q hq => hcorr q (List.mem_cons_of_mem _ hq)) h errs2
    · rw [hv] at h
      dsimp only at h
      rw [hit1] at h
      dsimp only at h
      rw [List.append_nil] at h
      rw [normGroups.eq_def]
      dsimp only
      rw [hw]
      dsimp only
      rw [hit2]
      dsimp only
      rw [List.append_nil]
      exact ih _ _ _ (fun q hq => hcorr q (List.mem_cons_of_mem _ hq)) h errs2

/-- C9 helper: the amended idempotence statement, assembled from the four
fold characterizations. -/
theorem normalizeData_split (data : List (String × PVal))
    (selectors : List SelectorSpec) (y : List (String × PVal))
    (hok : normalizeData data selectors = .ok (y, [])) :
    ∃ d, normFlat data (splitSelectors selectors).1 [] [] = .ok (d, []) ∧
      normGroups data (splitSelectors selectors).2 d [] = .ok (y, []) := by
  rw [normalizeData.eq_def] at hok
  dsimp only at hok
  cases hnf : normFlat data (splitSelectors selectors).1 [] [] with
  | error er =>
    rw [hnf] at hok
    dsimp only at hok
    exact absurd hok (by simp)
  | ok q =>
    obtain ⟨d, e1⟩ := q
    rw [hnf] at hok
    dsimp only at hok
    have he1 : e1 = [] := by
      have hpre := normGroups_errs_mono data _ _ _ _ _ hok
      have hlen := hpre.length_le
      exact List.eq_nil_of_length_eq_zero (Nat.le_zero.mp hlen)
    subst he1
    exact ⟨d, rfl, hok⟩

/-- C9 (amended): `normalize_data` is idempotent on inputs whose values all
survive the first call without error, PROVIDED the selector fields are
unambiguous: flat selector fields are pairwise distinct, the fields within
each group are pairwise distinct, and no flat field equals a group name.
(Without these conditions the claim is false: see the counterexample.) -/
theorem normalize_data_idempotent
    (data y : List (String × PVal)) (selectors : List SelectorSpec)
    (hflat : (((splitSelectors selectors).1).map (fun s => s.field)).Nodup)
    (hgrp : ∀ p ∈ (splitSelectors selectors).2, ((p.2.map (fun s => s.field)).Nodup))
    (hdisj : ∀ spec ∈ (splitSelectors selectors).1,
      ∀ p ∈ (splitSelectors selectors).2, spec.field ≠ p.1)
    (hok : normalizeData data selectors = .ok (y, [])) :
    normalizeData y selectors = .ok (y, []) := by
  obtain ⟨d, hnf, hgs⟩ := normalizeData_split data selectors y hok
  have hchF := normFlat_char data (splitSelectors selectors).1 [] [] d hflat hnf
  have hchG := normGroups_char data (splitSelectors selectors).2 d [] y
    (splitSelectors_nodup selectors) hgs
  have hyflat : ∀ spec ∈ (splitSelectors selectors).1,
      dictGet? y spec.field = dictGet? d spec.field := by
    intro spec hs
    exact normGroups_preserve data _ _ _ _ _ spec.field hgs
      (fun p hp hq => hdisj spec hs p hp hq.symm)
  have hnf2 : normFlat y (splitSelectors selectors).1 [] [] = .ok (d, []) := by
    refine normFlat_twin data y (splitSelectors selectors).1 [] [] d ?_ hnf []
    intro spec hs
    rcases hchF spec hs with ⟨hn, hd⟩ | ⟨v, w, hv, hvw, hdw⟩
    · left
      refine ⟨hn, ?_⟩
      apply pyGetNonNull_of_none
      rw [hyflat spec hs]
      exact hd
    · right
      refine ⟨v, w, hv, ?_, hvw⟩
      apply pyGetNonNull_of_dictGet
      · rw [hyflat spec hs]
        exact hdw
      · exact normalizeValue_ne_null v w spec.dataType (pyGetNonNull_some _ _ _ hv).2 hvw
  have hgs2 : normGroups y (splitSelectors selectors).2 d [] = .ok (y, []) := by
    refine normGroups_twin data y (splitSelectors selectors).2 d [] y ?_ hgs []
    intro p hp
    rcases hchG p hp with ⟨hn, hd⟩ | ⟨items, normed, hv, hni, hdw⟩
    · left
      refine ⟨hn, ?_⟩
      apply pyGetNonNull_of_none
      rw [hd]
      exact normFlat_preserve data _ _ _ _ _ p.1 hnf (fun spec hs => hdisj spec hs p hp)
    · right
      obtain ⟨new, hres, hfix⟩ := normItems_fixed_of_run p.1 p.2 (hgrp p hp) items 0 [] [] normed hni
      rw [List.nil_append] at hres
      subst hres
      refine ⟨items, normed, hv, ?_, hni, ?_⟩
      · apply pyGetNonNull_of_dictGet
        · exact hdw
        · simp
      · have hrun := normItems_run_of_fixed p.1 p.2 normed hfix 0 [] []
        rw [List.nil_append] at hrun
        exact hrun
  rw [normalizeData.eq_def]
  dsimp only
  rw [hnf2]
  dsimp only
  exact hgs2

/-- C9 counterexample: with two selectors sharing the field `a` (one `int`,
one `string`, both optional) and input `{a: 5.5}`, the first call returns
`({a: "5.5"}, [])` — every value survives — yet the second call returns
`({a: "5.5"}, ["type:a"])`, a fresh error from `int("5.5")`. -/
theorem normalize_data_idempotent_counterexample :
    normalizeData [("a", PVal.float elevenHalves)] dupFieldSelectors
      = .ok ([("a", PVal.str "5.5")], []) ∧
    normalizeData [("a", PVal.str "5.5")] dupFieldSelectors
      = .ok ([("a", PVal.str "5.5")], ["type:a"]) := by
  constructor
  · have hps : pyStr (PVal.float elevenHalves) = "5.5" := by
      rw [pyStr]
      rfl
    have key : normalizeData [("a", PVal.float elevenHalves)] dupFieldSelectors
        = .ok ([("a", PVal.str (pyStr (PVal.float elevenHalves)))], []) := rfl
    rw [key, hps]
  · rfl

/-- C9 witness: a concrete run satisfying every hypothesis of the amended
idempotence theorem. -/
theorem normalize_data_idempotent_witness :
    normalizeData [("a", PVal.str "x"), ("b", PVal.str "y")] emptyParseSelectors
      = .ok ([("a", PVal.str "x"), ("b", PVal.str "y")], []) :=
  normalize_data_idempotent [("a", PVal.str "x"), ("b", PVal.str "y")]
    [("a", PVal.str "x"), ("b", PVal.str "y")] emptyParseSelectors
    (by decide)
    (fun p hp => absurd hp (List.not_mem_nil p))
    (fun spec hs p hp => absurd hp (List.not_mem_nil p))
    rfl

end Proteus
